import Mathlib

/-! pmempool `common.c`: range lists, range parsing and byte-order conversion.

A shallow embedding of the functions of `src/tools/pmempool/common.c` and
theorems about them.  Unsigned 64-bit values are natural numbers; every place
where the C arithmetic can wrap carries an explicit `% 2 ^ 64`.  The `LIST_*`
queue of `struct ranges` is a Lean list whose head is `LIST_FIRST`.
-/

set_option linter.unusedVariables false

namespace Pmempool

/-! ## Range lists -/

/-- The number of values of `uint64_t`. -/
def UINT64_MOD : Nat := 2 ^ 64

/-- Embedding of `struct range`: the closed interval `[first, last]`. -/
structure range where
  first : Nat
  last : Nat
deriving DecidableEq, Repr

/-- A `struct range` whose two bounds are `uint64_t` values. -/
def range.is_u64 (r : range) : Prop :=
  r.first < UINT64_MOD ∧ r.last < UINT64_MOD

instance (r : range) : Decidable r.is_u64 := by
  unfold range.is_u64; infer_instance

/-- Embedding of `util_ranges_overlap`: `last + 1` is computed in `uint64_t`
and wraps to `0` when `last` is `UINT64_MAX`. -/
def util_ranges_overlap (rangep1 rangep2 : range) : Int :=
  if (rangep1.last + 1) % UINT64_MOD < rangep2.first ∨
      (rangep2.last + 1) % UINT64_MOD < rangep1.first then 0
  else 1

/-- The first loop of `util_ranges_add`: walks the list, unlinks every element
that `util_ranges_overlap` reports against `rangep` (whose fields are still the
ones passed in) and widens the locals `first` and `last`.  Returns the
remaining list and the final `first` and `last`. -/
def util_ranges_add_absorb (rangep : range) :
    List range → Nat → Nat → List range × Nat × Nat
  | [], first, last => ([], first, last)
  | curp :: next, first, last =>
    if util_ranges_overlap curp rangep ≠ 0 then
      util_ranges_add_absorb rangep next
        (if curp.first < first then curp.first else first)
        (if curp.last > last then curp.last else last)
    else
      let res := util_ranges_add_absorb rangep next first last
      (curp :: res.1, res.2.1, res.2.2)

/-- The `LIST_FOREACH` of `util_ranges_add`: `rangep` is linked right after the
first element whose `first` is smaller; `none` when the loop runs to the end
without inserting. -/
def util_ranges_add_after (rangep : range) : List range → Option (List range)
  | [] => none
  | curp :: next =>
    if curp.first < rangep.first then some (curp :: rangep :: next)
    else (util_ranges_add_after rangep next).map (fun l => curp :: l)

/-- Embedding of `util_ranges_add`.  The C function returns `0` on every path
that returns (a failed `malloc` ends the process), so the model returns the
updated list only. -/
def util_ranges_add (rangesp : List range) (r : range) : List range :=
  let res := util_ranges_add_absorb r rangesp r.first r.last
  let rangep : range := ⟨res.2.1, res.2.2⟩
  match util_ranges_add_after rangep res.1 with
  | some l => l
  | none => rangep :: res.1

/-- Embedding of `util_ranges_contain`. -/
def util_ranges_contain : List range → Nat → Int
  | [], _ => 0
  | curp :: next, n =>
    if curp.first ≤ n ∧ n ≤ curp.last then 1 else util_ranges_contain next n

/-- Inserting a sequence of ranges, one `util_ranges_add` call each, into a list. -/
def util_ranges_add_all (rangesp : List range) (rs : List range) : List range :=
  rs.foldl util_ranges_add rangesp

/-- Two ranges are apart: a gap of at least one number lies between them. -/
def range.apart (a b : range) : Prop :=
  a.last + 1 < b.first ∨ b.last + 1 < a.first

instance (a b : range) : Decidable (range.apart a b) := by
  unfold range.apart; infer_instance

/-- A range list is sorted by ascending `first`. -/
def ranges_sorted (l : List range) : Prop :=
  l.Pairwise (fun a b => a.first ≤ b.first)

instance (l : List range) : Decidable (ranges_sorted l) := by
  unfold ranges_sorted; infer_instance

/-- Every element is a non-empty interval ending below `UINT64_MAX`, and any
two elements are apart. -/
def ranges_inv (l : List range) : Prop :=
  (∀ c ∈ l, c.first ≤ c.last ∧ c.last < 2 ^ 64 - 1) ∧ l.Pairwise range.apart

/-! ## Parsing sizes and ranges

C strings are lists of characters (the terminating NUL is not part of the
list, and no character of a C string is NUL).  The `sscanf` conversions used by the parsers are modelled after the
C library: `%lu` skips white space, takes an optional sign and a non-empty run
of decimal digits, and yields `ULONG_MAX` when the digits do not fit; `%3s`
skips white space and takes at most three non-white characters; `%[^-]` takes
a non-empty run of characters other than `-`; `%c` takes one character. -/

/-- The C library `isspace` in the "C" locale. -/
def isspace (c : Char) : Bool :=
  c = ' ' || c = '\t' || c = '\n' || c = '\x0b' || c = '\x0c' || c = '\r'

/-- The C library `isdigit`. -/
def isdigit (c : Char) : Bool :=
  '0'.toNat ≤ c.toNat && c.toNat ≤ '9'.toNat

/-- Value of a run of decimal digits, most significant first. -/
def decimal_value (ds : List Char) : Nat :=
  ds.foldl (fun acc c => acc * 10 + (c.toNat - '0'.toNat)) 0

/-- The `%lu` conversion of `sscanf`: the converted value and the unread rest
of the input, or `none` when no number starts the input. -/
def scan_lu (s : List Char) : Option (Nat × List Char) :=
  let s1 := s.dropWhile isspace
  let neg := s1.head? = some '-'
  let s2 := if s1.head? = some '-' ∨ s1.head? = some '+' then s1.tail else s1
  let ds := s2.takeWhile isdigit
  if ds = [] then none
  else
    let v := decimal_value ds
    let u := if UINT64_MOD ≤ v then UINT64_MOD - 1
      else if neg then (UINT64_MOD - v) % UINT64_MOD else v
    some (u, s2.dropWhile isdigit)

/-- The `%3s` conversion of `sscanf`: at most three non-white characters after
optional white space (empty when the input has ended). -/
def scan_3s (s : List Char) : List Char :=
  ((s.dropWhile isspace).takeWhile (fun c => !isspace c)).take 3

/-- The `%[^-]` conversion of `sscanf`: the matched run and the unread rest,
or `none` when the run would be empty. -/
def scan_not_dash (s : List Char) : Option (List Char × List Char) :=
  let m := s.takeWhile (fun c => c ≠ '-')
  if m = [] then none else some (m, s.dropWhile (fun c => c ≠ '-'))

/-- Embedding of `util_parse_size` with a non-null `sizep`: `none` is the
return value `-1`, `some v` is the return value `0` with `*sizep = v`.  The
shift `size << shift` is a `uint64_t` shift. -/
def util_parse_size (str : List Char) : Option Nat :=
  match scan_lu str with
  | none => none
  | some (size, rest) =>
    let unit := scan_3s rest
    if unit = [] then some size
    else
      let unit0 := unit.getD 0 '\x00'
      let unit1 := unit.getD 1 '\x00'
      let unit2 := unit.getD 2 '\x00'
      if (unit1 ≠ '\x00' ∧ unit1 ≠ 'B') ∨ unit2 ≠ '\x00' then none
      else
        let shift : Option Nat :=
          if unit0 = 'K' then some 10
          else if unit0 = 'M' then some 20
          else if unit0 = 'G' then some 30
          else if unit0 = 'T' then some 40
          else if unit0 = 'P' then some 50
          else none
        match shift with
        | none => none
        | some sh => some ((size * 2 ^ sh) % UINT64_MOD)

/-- Embedding of `util_range_limit`. -/
def util_range_limit (rangep : range) (limit : range) : range :=
  let r1 : range := if rangep.first < limit.first then ⟨limit.first, rangep.last⟩ else rangep
  if r1.last > limit.last then ⟨r1.first, limit.last⟩ else r1

/-- Embedding of `util_parse_range_from_to`: the return value and the content
of `*rangep` afterwards (`rangep` is the content before the call). -/
def util_parse_range_from_to (str : List Char) (rangep : range) (entire : range) :
    Int × range :=
  match scan_not_dash str with
  | none => (-1, rangep)
  | some (str1, rest1) =>
    match rest1 with
    | [] => (-1, rangep)
    | sep :: rest2 =>
      match scan_not_dash rest2 with
      | none => (-1, rangep)
      | some (str2, _) =>
        if sep = '-' ∧ str.length = str1.length + 1 + str2.length then
          let parsed : Int × range :=
            match util_parse_size str1 with
            | none => (-1, rangep)
            | some first =>
              match util_parse_size str2 with
              | none => (-1, ⟨first, rangep.last⟩)
              | some last => (0, ⟨first, last⟩)
          let r := parsed.2
          let swapped : range := if r.first > r.last then ⟨r.last, r.first⟩ else r
          (parsed.1, util_range_limit swapped entire)
        else (-1, rangep)

/-- Embedding of `util_parse_range_from`. -/
def util_parse_range_from (str : List Char) (rangep : range) (entire : range) :
    Int × range :=
  match scan_not_dash str with
  | none => (-1, rangep)
  | some (str1, rest1) =>
    match rest1 with
    | [] => (-1, rangep)
    | sep :: _ =>
      if sep = '-' ∧ str.length = str1.length + 1 then
        match util_parse_size str1 with
        | some first => (0, util_range_limit ⟨first, entire.last⟩ entire)
        | none => (-1, rangep)
      else (-1, rangep)

/-- Embedding of `util_parse_range_to`. -/
def util_parse_range_to (str : List Char) (rangep : range) (entire : range) :
    Int × range :=
  match str with
  | [] => (-1, rangep)
  | sep :: rest1 =>
    match scan_not_dash rest1 with
    | none => (-1, rangep)
    | some (str1, _) =>
      if sep = '-' ∧ str.length = 1 + str1.length then
        match util_parse_size str1 with
        | some last => (0, util_range_limit ⟨entire.first, last⟩ entire)
        | none => (-1, rangep)
      else (-1, rangep)

/-- Embedding of `util_parse_range_number`. -/
def util_parse_range_number (str : List Char) (rangep : range) (entire : range) :
    Int × range :=
  match util_parse_size str with
  | none => (-1, rangep)
  | some first =>
    let r : range := ⟨first, first⟩
    if r.first > entire.last ∨ r.last < entire.first then (-1, r)
    else (0, util_range_limit r entire)

/-- Embedding of `util_parse_range`: the four formats are tried in turn on the
same `*rangep`. -/
def util_parse_range (str : List Char) (rangep : range) (entire : range) :
    Int × range :=
  let a := util_parse_range_from_to str rangep entire
  if a.1 = 0 then (0, a.2)
  else
    let b := util_parse_range_from str a.2 entire
    if b.1 = 0 then (0, b.2)
    else
      let c := util_parse_range_to str b.2 entire
      if c.1 = 0 then (0, c.2)
      else
        let d := util_parse_range_number str c.2 entire
        if d.1 = 0 then (0, d.2) else (-1, d.2)

/-- The pieces the `strchr (str, ',')` loop of `util_parse_ranges` visits: the
string cut at every comma. -/
def comma_tokens : List Char → List (List Char)
  | [] => [[]]
  | c :: cs =>
    if c = ',' then [] :: comma_tokens cs
    else
      match comma_tokens cs with
      | [] => [[c]]
      | t :: ts => (c :: t) :: ts

/-- The `do ... while (next != NULL)` loop of `util_parse_ranges` over the
comma-separated pieces; `range0` is the indeterminate content of the local
`struct range range` at the start of an iteration. -/
def util_parse_ranges_loop (entire range0 : range) :
    List (List Char) → List range → Int × List range
  | [], rangesp => (0, rangesp)
  | str :: next, rangesp =>
    let p := util_parse_range str range0 entire
    if p.1 ≠ 0 then (-1, rangesp)
    else util_parse_ranges_loop entire range0 next (util_ranges_add rangesp p.2)

/-- Embedding of `util_parse_ranges`: `ptr = none` is the null pointer.  The
result is the return value and the range list afterwards. -/
def util_parse_ranges (ptr : Option (List Char)) (rangesp : List range)
    (entire range0 : range) : Int × List range :=
  match ptr with
  | none => (0, util_ranges_add rangesp entire)
  | some s => util_parse_ranges_loop entire range0 (comma_tokens s) rangesp


/-! ## Byte-order conversion

The `<endian.h>` functions depend on the host: on a little-endian host all of
them are the identity, on a big-endian host they reverse the bytes of their
operand.  The host is the parameter `be` (`true` on a big-endian host).  A
store into a field of `w` bits keeps the low `w` bits of the stored value. -/

/-- Byte reversal of a 16-bit value. -/
def bswap_16 (x : Nat) : Nat :=
  x % 256 * 256 + x / 256 % 256

/-- Byte reversal of a 32-bit value. -/
def bswap_32 (x : Nat) : Nat :=
  x % 256 * 16777216 + x / 256 % 256 * 65536 + x / 65536 % 256 * 256 + x / 16777216 % 256

/-- Byte reversal of a 64-bit value. -/
def bswap_64 (x : Nat) : Nat :=
  x % 256 * 72057594037927936 + x / 256 % 256 * 281474976710656 +
    x / 65536 % 256 * 1099511627776 + x / 16777216 % 256 * 4294967296 +
    x / 4294967296 % 256 * 16777216 + x / 1099511627776 % 256 * 65536 +
    x / 281474976710656 % 256 * 256 + x / 72057594037927936 % 256

/-- The `<endian.h>` function `le16toh`. -/
def le16toh (be : Bool) (x : Nat) : Nat := if be then bswap_16 x else x
/-- The `<endian.h>` function `le32toh`. -/
def le32toh (be : Bool) (x : Nat) : Nat := if be then bswap_32 x else x
/-- The `<endian.h>` function `le64toh`. -/
def le64toh (be : Bool) (x : Nat) : Nat := if be then bswap_64 x else x
/-- The `<endian.h>` function `htole16`. -/
def htole16 (be : Bool) (x : Nat) : Nat := if be then bswap_16 x else x
/-- The `<endian.h>` function `htole32`. -/
def htole32 (be : Bool) (x : Nat) : Nat := if be then bswap_32 x else x
/-- The `<endian.h>` function `htole64`. -/
def htole64 (be : Bool) (x : Nat) : Nat := if be then bswap_64 x else x

/-- A store into a `uint16_t` object. -/
def store16 (v : Nat) : Nat := v % 2 ^ 16
/-- A store into a `uint32_t` object. -/
def store32 (v : Nat) : Nat := v % 2 ^ 32
/-- A store into a `uint64_t` object. -/
def store64 (v : Nat) : Nat := v % 2 ^ 64

/-- Modelled from the spec: the declaration of `struct pool_hdr` is not among
the sources.  The fields are the signature bytes and the numeric fields that
`common.c` names, with the width of the `<endian.h>` function applied to each;
`other` holds the bytes of every remaining member. -/
structure pool_hdr where
  signature : List Nat
  compat_features : Nat
  incompat_features : Nat
  ro_compat_features : Nat
  crtime : Nat
  checksum : Nat
  other : List Nat
deriving DecidableEq, Repr

/-- Every numeric field of a `struct pool_hdr` fits its C type. -/
def pool_hdr.wf (h : pool_hdr) : Prop :=
  h.compat_features < 2 ^ 32 ∧ h.incompat_features < 2 ^ 32 ∧
    h.ro_compat_features < 2 ^ 32 ∧ h.crtime < 2 ^ 64 ∧ h.checksum < 2 ^ 64

instance (h : pool_hdr) : Decidable h.wf := by
  unfold pool_hdr.wf; infer_instance

/-- Modelled from the spec: the declaration of `struct btt_info` is not among
the sources.  The fields are the numeric fields that `common.c` names, with
the widths `util_convert2h_btt_info` uses (`flags` is a `uint32_t`); `other`
holds the bytes of every remaining member. -/
structure btt_info where
  flags : Nat
  minor : Nat
  external_lbasize : Nat
  external_nlba : Nat
  internal_lbasize : Nat
  internal_nlba : Nat
  nfree : Nat
  infosize : Nat
  nextoff : Nat
  dataoff : Nat
  mapoff : Nat
  flogoff : Nat
  infooff : Nat
  checksum : Nat
  other : List Nat
deriving DecidableEq, Repr

/-- Every numeric field of a `struct btt_info` fits its C type. -/
def btt_info.wf (i : btt_info) : Prop :=
  i.flags < 2 ^ 32 ∧ i.minor < 2 ^ 16 ∧ i.external_lbasize < 2 ^ 32 ∧
    i.external_nlba < 2 ^ 32 ∧ i.internal_lbasize < 2 ^ 32 ∧ i.internal_nlba < 2 ^ 32 ∧
    i.nfree < 2 ^ 32 ∧ i.infosize < 2 ^ 32 ∧ i.nextoff < 2 ^ 64 ∧ i.dataoff < 2 ^ 64 ∧
    i.mapoff < 2 ^ 64 ∧ i.flogoff < 2 ^ 64 ∧ i.infooff < 2 ^ 64 ∧ i.checksum < 2 ^ 64

instance (i : btt_info) : Decidable i.wf := by
  unfold btt_info.wf; infer_instance

/-- Modelled from the spec: the declaration of `struct btt_flog` is not among
the sources; its four members are `uint32_t`. -/
structure btt_flog where
  lba : Nat
  old_map : Nat
  new_map : Nat
  seq : Nat
deriving DecidableEq, Repr

/-- Every field of a `struct btt_flog` fits its C type. -/
def btt_flog.wf (f : btt_flog) : Prop :=
  f.lba < 2 ^ 32 ∧ f.old_map < 2 ^ 32 ∧ f.new_map < 2 ^ 32 ∧ f.seq < 2 ^ 32

instance (f : btt_flog) : Decidable f.wf := by
  unfold btt_flog.wf; infer_instance

/-- Modelled from the spec: the declaration of `struct pmemlog` is not among
the sources.  It is the pool header followed by three `uint64_t` offsets;
`other` holds the bytes of every remaining member. -/
structure pmemlog where
  hdr : pool_hdr
  start_offset : Nat
  end_offset : Nat
  write_offset : Nat
  other : List Nat
deriving DecidableEq, Repr

/-- Every offset of a `struct pmemlog` fits its C type. -/
def pmemlog.wf (p : pmemlog) : Prop :=
  p.start_offset < 2 ^ 64 ∧ p.end_offset < 2 ^ 64 ∧ p.write_offset < 2 ^ 64

instance (p : pmemlog) : Decidable p.wf := by
  unfold pmemlog.wf; infer_instance

/-- Embedding of `util_convert2h_pool_hdr`. -/
def util_convert2h_pool_hdr (be : Bool) (hdrp : pool_hdr) : pool_hdr :=
  { hdrp with
    compat_features := store32 (le32toh be hdrp.compat_features)
    incompat_features := store32 (le32toh be hdrp.incompat_features)
    ro_compat_features := store32 (le32toh be hdrp.ro_compat_features)
    crtime := store64 (le64toh be hdrp.crtime)
    checksum := store64 (le64toh be hdrp.checksum) }

/-- Embedding of `util_convert2le_pool_hdr`. -/
def util_convert2le_pool_hdr (be : Bool) (hdrp : pool_hdr) : pool_hdr :=
  { hdrp with
    compat_features := store32 (htole32 be hdrp.compat_features)
    incompat_features := store32 (htole32 be hdrp.incompat_features)
    ro_compat_features := store32 (htole32 be hdrp.ro_compat_features)
    crtime := store64 (htole64 be hdrp.crtime)
    checksum := store64 (htole64 be hdrp.checksum) }

/-- Embedding of `util_convert2h_btt_info`. -/
def util_convert2h_btt_info (be : Bool) (infop : btt_info) : btt_info :=
  { infop with
    flags := store32 (le32toh be infop.flags)
    minor := store16 (le16toh be infop.minor)
    external_lbasize := store32 (le32toh be infop.external_lbasize)
    external_nlba := store32 (le32toh be infop.external_nlba)
    internal_lbasize := store32 (le32toh be infop.internal_lbasize)
    internal_nlba := store32 (le32toh be infop.internal_nlba)
    nfree := store32 (le32toh be infop.nfree)
    infosize := store32 (le32toh be infop.infosize)
    nextoff := store64 (le64toh be infop.nextoff)
    dataoff := store64 (le64toh be infop.dataoff)
    mapoff := store64 (le64toh be infop.mapoff)
    flogoff := store64 (le64toh be infop.flogoff)
    infooff := store64 (le64toh be infop.infooff)
    checksum := store64 (le64toh be infop.checksum) }

/-- Embedding of `util_convert2le_btt_info`.  The source converts `flags` with
`htole64`: the 32-bit field is widened to 64 bits, converted, and the result
is stored back into the 32-bit field. -/
def util_convert2le_btt_info (be : Bool) (infop : btt_info) : btt_info :=
  { infop with
    flags := store32 (htole64 be infop.flags)
    minor := store16 (htole16 be infop.minor)
    external_lbasize := store32 (htole32 be infop.external_lbasize)
    external_nlba := store32 (htole32 be infop.external_nlba)
    internal_lbasize := store32 (htole32 be infop.internal_lbasize)
    internal_nlba := store32 (htole32 be infop.internal_nlba)
    nfree := store32 (htole32 be infop.nfree)
    infosize := store32 (htole32 be infop.infosize)
    nextoff := store64 (htole64 be infop.nextoff)
    dataoff := store64 (htole64 be infop.dataoff)
    mapoff := store64 (htole64 be infop.mapoff)
    flogoff := store64 (htole64 be infop.flogoff)
    infooff := store64 (htole64 be infop.infooff)
    checksum := store64 (htole64 be infop.checksum) }

/-- Embedding of `util_convert2h_btt_flog`. -/
def util_convert2h_btt_flog (be : Bool) (flogp : btt_flog) : btt_flog :=
  { lba := store32 (le32toh be flogp.lba)
    old_map := store32 (le32toh be flogp.old_map)
    new_map := store32 (le32toh be flogp.new_map)
    seq := store32 (le32toh be flogp.seq) }

/-- Embedding of `util_convert2le_btt_flog`. -/
def util_convert2le_btt_flog (be : Bool) (flogp : btt_flog) : btt_flog :=
  { lba := store32 (htole32 be flogp.lba)
    old_map := store32 (htole32 be flogp.old_map)
    new_map := store32 (htole32 be flogp.new_map)
    seq := store32 (htole32 be flogp.seq) }

/-- Embedding of `util_convert2h_pmemlog`. -/
def util_convert2h_pmemlog (be : Bool) (plp : pmemlog) : pmemlog :=
  { plp with
    start_offset := store64 (le64toh be plp.start_offset)
    end_offset := store64 (le64toh be plp.end_offset)
    write_offset := store64 (le64toh be plp.write_offset) }

/-- Embedding of `util_convert2le_pmemlog`. -/
def util_convert2le_pmemlog (be : Bool) (plp : pmemlog) : pmemlog :=
  { plp with
    start_offset := store64 (htole64 be plp.start_offset)
    end_offset := store64 (htole64 be plp.end_offset)
    write_offset := store64 (htole64 be plp.write_offset) }

/-! ## Checksum validation

A buffer is the list of its bytes; `len` is the length of the list.  The
pointer `csum` is the offset of the 8-byte checksum field inside the buffer. -/

/-- Little-endian byte image of a `uint64_t`: what `htole64 (v)` leaves in
memory on either host. -/
def le_bytes64 (v : Nat) : List Nat :=
  [v % 256, v / 256 % 256, v / 65536 % 256, v / 16777216 % 256, v / 4294967296 % 256,
    v / 1099511627776 % 256, v / 281474976710656 % 256, v / 72057594037927936 % 256]

/-- The 8 bytes that `csump` points at. -/
def csum_field (addr : List Nat) (csump : Nat) : List Nat :=
  (addr.drop csump).take 8

/-- The buffer after a store of 8 bytes through `csump`. -/
def store_csum (addr : List Nat) (csump : Nat) (bytes : List Nat) : List Nat :=
  addr.take csump ++ bytes ++ addr.drop (csump + 8)

/-- The checksum of a buffer under the algorithm `alg`, with the bytes of the
checksum field treated as zero; a 64-bit value. -/
def checksum_of (alg : List Nat → Nat) (addr : List Nat) (csump : Nat) : Nat :=
  alg (store_csum addr csump (List.replicate 8 0)) % 2 ^ 64

/-- Modelled from the spec: `util_checksum` is called by `common.c` and defined
elsewhere in the repository.  It computes the checksum of the buffer with the
checksum field treated as zero (the algorithm `alg` is implementation-defined).
With `insert = 0` it reports whether the stored checksum matches and leaves the
buffer alone; with `insert = 1` it stores the computed checksum, in little-endian
byte order, through `csump` ("get valid one" at the call site, whose return
value is dropped).  The result is the return value and the buffer afterwards. -/
def util_checksum (alg : List Nat → Nat) (addr : List Nat) (csump : Nat) (insert : Bool) :
    Int × List Nat :=
  let csum := checksum_of alg addr csump
  if insert then (1, store_csum addr csump (le_bytes64 csum))
  else (if csum_field addr csump = le_bytes64 csum then 1 else 0, addr)

/-- Embedding of `util_validate_checksum`: the return value and the buffer
afterwards. -/
def util_validate_checksum (alg : List Nat → Nat) (addr : List Nat) (csum : Nat) :
    Int × List Nat :=
  let v := util_checksum alg addr csum false
  let csum_valid := v.1
  if csum_valid = 0 then (csum_valid, (util_checksum alg v.2 csum true).2)
  else (csum_valid, v.2)

/-- The loop of a Fletcher checksum over 32-bit little-endian words: `lo32` and
`hi32` are `uint32_t` accumulators. -/
def fletcher64_loop : List Nat → Nat → Nat → Nat × Nat
  | b0 :: b1 :: b2 :: b3 :: rest, lo32, hi32 =>
    let lo := (lo32 + (b0 + 256 * b1 + 65536 * b2 + 16777216 * b3)) % 2 ^ 32
    fletcher64_loop rest lo ((hi32 + lo) % 2 ^ 32)
  | _, lo32, hi32 => (lo32, hi32)

/-- A sample checksum algorithm (the spec leaves the algorithm open): Fletcher
checksum over 32-bit little-endian words, `hi32 << 32 | lo32`. -/
def fletcher64 (bytes : List Nat) : Nat :=
  (fletcher64_loop bytes 0 0).2 * 2 ^ 32 + (fletcher64_loop bytes 0 0).1

/-! ## Pool type from the header signature -/

/-- Modelled from the spec: the enumeration `pmem_pool_type_t` is declared
outside the sources; its values are the closed set named by the spec and used
in `common.c`. -/
inductive pmem_pool_type_t where
  | PMEM_POOL_TYPE_NONE
  | PMEM_POOL_TYPE_LOG
  | PMEM_POOL_TYPE_BLK
  | PMEM_POOL_TYPE_OBJ
  | PMEM_POOL_TYPE_UNKNOWN
deriving DecidableEq, Repr

/-- The signature constants of the library headers, which are not among the
sources: three strings (lists of bytes, the terminating NUL left out) and the
length of the signature field. -/
structure hdr_sigs where
  LOG_HDR_SIG : List Nat
  BLK_HDR_SIG : List Nat
  OBJ_HDR_SIG : List Nat
  POOL_HDR_SIG_LEN : Nat
deriving DecidableEq, Repr

/-- The C library `strncmp` on byte strings: at most `n` characters are
compared, and the comparison stops after a NUL.  The end of a list reads as
NUL. -/
def strncmp (s1 s2 : List Nat) : Nat → Int
  | 0 => 0
  | n + 1 =>
    if s1.headD 0 ≠ s2.headD 0 then (s1.headD 0 : Int) - (s2.headD 0 : Int)
    else if s1.headD 0 = 0 then 0
    else strncmp s1.tail s2.tail n

/-- Embedding of `pmem_pool_type_parse_hdr`. -/
def pmem_pool_type_parse_hdr (k : hdr_sigs) (hdrp : pool_hdr) : pmem_pool_type_t :=
  if strncmp hdrp.signature k.LOG_HDR_SIG k.POOL_HDR_SIG_LEN = 0 then
    pmem_pool_type_t.PMEM_POOL_TYPE_LOG
  else if strncmp hdrp.signature k.BLK_HDR_SIG k.POOL_HDR_SIG_LEN = 0 then
    pmem_pool_type_t.PMEM_POOL_TYPE_BLK
  else if strncmp hdrp.signature k.OBJ_HDR_SIG k.POOL_HDR_SIG_LEN = 0 then
    pmem_pool_type_t.PMEM_POOL_TYPE_OBJ
  else pmem_pool_type_t.PMEM_POOL_TYPE_UNKNOWN

/-- The signature constants as the pool library defines them: `"PMEMLOG"`,
`"PMEMBLK"`, `"PMEMOBJ"` and a field of 8 bytes. -/
def library_sigs : hdr_sigs :=
  { LOG_HDR_SIG := [80, 77, 69, 77, 76, 79, 71]
    BLK_HDR_SIG := [80, 77, 69, 77, 66, 76, 75]
    OBJ_HDR_SIG := [80, 77, 69, 77, 79, 66, 74]
    POOL_HDR_SIG_LEN := 8 }

/-! ## Block size limits of a BTT arena

The constants and structure sizes that `util_get_max_bsize` uses come from
library headers that are not among the sources; they are the fields of
`btt_consts`.  `uint64_t` and `size_t` arithmetic is taken modulo `2 ^ 64`,
`uint32_t` arithmetic modulo `2 ^ 32`, and `int` arithmetic wraps in 32-bit
two's complement. -/

/-- The constants of the library headers used by `util_get_max_bsize`. -/
structure btt_consts where
  sizeof_pmemblk : Nat
  sizeof_btt_info : Nat
  sizeof_btt_flog : Nat
  BTT_DEFAULT_NFREE : Nat
  BTT_FLOG_PAIR_ALIGN : Nat
  BTT_ALIGNMENT : Nat
  BTT_MAX_ARENA : Nat
  BTT_MAP_ENTRY_SIZE : Nat
  BTT_MIN_LBA_SIZE : Nat
  BTT_INTERNAL_LBA_ALIGNMENT : Nat
deriving DecidableEq, Repr

/-- The macro `roundup (x, y)` of `<sys/param.h>` on unbounded naturals:
`((x + (y - 1)) / y) * y`. -/
def roundup (x y : Nat) : Nat := (x + (y - 1)) / y * y

/-- The macro `roundup (x, y)` on unbounded integers. -/
def roundup_int (x y : Int) : Int := (x + (y - 1)) / y * y

/-- Subtraction of `uint64_t` values. -/
def usub64 (a b : Nat) : Nat := (a + 2 ^ 64 - b % 2 ^ 64) % 2 ^ 64

/-- Subtraction of `uint32_t` values. -/
def usub32 (a b : Nat) : Nat := (a + 2 ^ 32 - b % 2 ^ 32) % 2 ^ 32

/-- The macro `roundup (x, y)` evaluated in `size_t`. -/
def roundup64 (x y : Nat) : Nat :=
  ((x % 2 ^ 64 + usub64 y 1) % 2 ^ 64 / (y % 2 ^ 64) * (y % 2 ^ 64)) % 2 ^ 64

/-- The macro `roundup (x, y)` evaluated in `uint32_t`. -/
def roundup32 (x y : Nat) : Nat :=
  ((x % 2 ^ 32 + usub32 y 1) % 2 ^ 32 / (y % 2 ^ 32) * (y % 2 ^ 32)) % 2 ^ 32

/-- Conversion to `int`: the value modulo `2 ^ 32`, read as two's complement. -/
def to_int (x : Int) : Int := (x + 2 ^ 31) % 2 ^ 32 - 2 ^ 31

/-- The local `flog_size` of `util_get_max_bsize` after both assignments: the
product is computed in `size_t` and narrowed to `int`, the second `roundup` is
`int` arithmetic (division truncates). -/
def util_get_max_bsize_flog_size (c : btt_consts) : Int :=
  let nfree := c.BTT_DEFAULT_NFREE % 2 ^ 32
  let flog_size : Int :=
    to_int ((nfree * roundup64 (2 * c.sizeof_btt_flog) c.BTT_FLOG_PAIR_ALIGN % 2 ^ 64 : Nat) : Int)
  to_int (to_int (Int.tdiv (to_int (flog_size + to_int ((c.BTT_ALIGNMENT : Int) - 1)))
    (c.BTT_ALIGNMENT : Int)) * (c.BTT_ALIGNMENT : Int))

/-- The local `arena_size` of `util_get_max_bsize` after the pool header, the
cap at `BTT_MAX_ARENA`, the two info blocks and the flog have been taken off. -/
def util_get_max_bsize_arena (c : btt_consts) (fsize : Nat) : Nat :=
  let arena0 := usub64 (fsize % 2 ^ 64) c.sizeof_pmemblk
  let arena1 := if arena0 > c.BTT_MAX_ARENA % 2 ^ 64 then c.BTT_MAX_ARENA % 2 ^ 64 else arena0
  let arena2 := usub64 arena1 (2 * c.sizeof_btt_info)
  Int.toNat (((arena2 : Int) - util_get_max_bsize_flog_size c) % 2 ^ 64)

/-- The local `internal_lbasize` of `util_get_max_bsize` after the clamp to
`BTT_MIN_LBA_SIZE`. -/
def util_get_max_bsize_lbasize (c : btt_consts) (fsize : Nat) : Nat :=
  let internal_nlba := 2 * (c.BTT_DEFAULT_NFREE % 2 ^ 32) % 2 ^ 32
  let internal_lbasize :=
    usub64 (usub64 (util_get_max_bsize_arena c fsize) c.BTT_ALIGNMENT / internal_nlba)
      c.BTT_MAP_ENTRY_SIZE % 2 ^ 32
  if internal_lbasize < c.BTT_MIN_LBA_SIZE then c.BTT_MIN_LBA_SIZE % 2 ^ 32
  else internal_lbasize

/-- Embedding of `util_get_max_bsize`. -/
def util_get_max_bsize (c : btt_consts) (fsize : Nat) : Nat :=
  if fsize = 0 then 0
  else
    usub32 (roundup32 (util_get_max_bsize_lbasize c fsize) c.BTT_INTERNAL_LBA_ALIGNMENT)
      c.BTT_INTERNAL_LBA_ALIGNMENT

/-- Embedding of `util_check_bsize`: `!(bsize < max_bsize)`. -/
def util_check_bsize (c : btt_consts) (bsize : Nat) (fsize : Nat) : Int :=
  let max_bsize := util_get_max_bsize c fsize
  if bsize < max_bsize then 0 else 1

/-- The flog region size `F` as a natural number:
`roundup (BTT_DEFAULT_NFREE * roundup (2 * sizeof (struct btt_flog),
BTT_FLOG_PAIR_ALIGN), BTT_ALIGNMENT)`. -/
def flog_region (c : btt_consts) : Nat :=
  roundup (c.BTT_DEFAULT_NFREE * roundup (2 * c.sizeof_btt_flog) c.BTT_FLOG_PAIR_ALIGN)
    c.BTT_ALIGNMENT

/-- The smallest file size for which no subtraction of `util_get_max_bsize`
goes below zero. -/
def min_feasible_size (c : btt_consts) : Nat :=
  c.sizeof_pmemblk + 2 * c.sizeof_btt_info + flog_region c + c.BTT_ALIGNMENT +
    2 * c.BTT_DEFAULT_NFREE * c.BTT_MAP_ENTRY_SIZE

/-- The arena size `A` of the capacity formula, over the integers. -/
def arena_formula (c : btt_consts) (fsize : Int) : Int :=
  min (fsize - (c.sizeof_pmemblk : Int)) (c.BTT_MAX_ARENA : Int) -
    2 * (c.sizeof_btt_info : Int) - (flog_region c : Int)

/-- The value of the capacity formula before the final rounding, over the
integers: `max (BTT_MIN_LBA_SIZE, (A - BTT_ALIGNMENT) / (2 * BTT_DEFAULT_NFREE) -
BTT_MAP_ENTRY_SIZE)`. -/
def clamped_formula (c : btt_consts) (fsize : Int) : Int :=
  max (c.BTT_MIN_LBA_SIZE : Int)
    ((arena_formula c fsize - (c.BTT_ALIGNMENT : Int)) / (2 * (c.BTT_DEFAULT_NFREE : Int)) -
      (c.BTT_MAP_ENTRY_SIZE : Int))

/-- The capacity formula over the integers. -/
def max_bsize_formula (c : btt_consts) (fsize : Int) : Int :=
  roundup_int (clamped_formula c fsize) (c.BTT_INTERNAL_LBA_ALIGNMENT : Int) -
    (c.BTT_INTERNAL_LBA_ALIGNMENT : Int)

/-- The arena size of the capacity formula on natural numbers (truncated
subtraction). -/
def arena_nat (c : btt_consts) (fsize : Nat) : Nat :=
  min (fsize - c.sizeof_pmemblk) c.BTT_MAX_ARENA - 2 * c.sizeof_btt_info - flog_region c

/-- The clamped sector size of the capacity formula on natural numbers. -/
def clamped_nat (c : btt_consts) (fsize : Nat) : Nat :=
  max c.BTT_MIN_LBA_SIZE
    ((arena_nat c fsize - c.BTT_ALIGNMENT) / (2 * c.BTT_DEFAULT_NFREE) - c.BTT_MAP_ENTRY_SIZE)

/-- The constants have values for which the constant subexpressions of
`util_get_max_bsize` fit the C types they are computed in, and an arena of
`BTT_MAX_ARENA` bytes holds the fixed parts and gives a sector size that fits
`uint32_t`. -/
def btt_consts.fits (c : btt_consts) : Prop :=
  0 < c.BTT_DEFAULT_NFREE ∧ 2 * c.BTT_DEFAULT_NFREE < 2 ^ 32 ∧
    0 < c.BTT_FLOG_PAIR_ALIGN ∧ 0 < c.BTT_ALIGNMENT ∧
    0 < c.BTT_INTERNAL_LBA_ALIGNMENT ∧ 0 < c.BTT_MIN_LBA_SIZE ∧
    2 * c.sizeof_btt_flog + c.BTT_FLOG_PAIR_ALIGN < 2 ^ 64 ∧
    c.BTT_DEFAULT_NFREE * roundup (2 * c.sizeof_btt_flog) c.BTT_FLOG_PAIR_ALIGN +
      c.BTT_ALIGNMENT ≤ 2 ^ 31 ∧
    2 * c.sizeof_btt_info + flog_region c + c.BTT_ALIGNMENT +
      2 * c.BTT_DEFAULT_NFREE * c.BTT_MAP_ENTRY_SIZE ≤ c.BTT_MAX_ARENA ∧
    c.BTT_MAX_ARENA < 2 ^ 64 ∧
    c.BTT_MAX_ARENA / (2 * c.BTT_DEFAULT_NFREE) + c.BTT_INTERNAL_LBA_ALIGNMENT ≤ 2 ^ 32 ∧
    c.BTT_MIN_LBA_SIZE + c.BTT_INTERNAL_LBA_ALIGNMENT ≤ 2 ^ 32

instance (c : btt_consts) : Decidable c.fits := by
  unfold btt_consts.fits; infer_instance

/-- The values the library headers give the BTT constants (`BTT_MAX_ARENA` is
`1 << 39`, a `struct btt_info` fills 4096 bytes, a `struct btt_flog` 16);
`sizeof (struct pmemblk)` depends on the platform and is 4184 here. -/
def library_btt_consts : btt_consts :=
  { sizeof_pmemblk := 4184
    sizeof_btt_info := 4096
    sizeof_btt_flog := 16
    BTT_DEFAULT_NFREE := 256
    BTT_FLOG_PAIR_ALIGN := 64
    BTT_ALIGNMENT := 4096
    BTT_MAX_ARENA := 549755813888
    BTT_MAP_ENTRY_SIZE := 4
    BTT_MIN_LBA_SIZE := 512
    BTT_INTERNAL_LBA_ALIGNMENT := 256 }

/-! ## Probing a pool file

The file system is a record of what each system call of
`pmem_pool_parse_params` yields; the function result carries the calls made,
in order. -/

/-- Modelled from the spec: `struct pmem_pool_params` is declared outside the
sources; these are the members `common.c` assigns (`blk.bsize` and `obj.layout`
are the type-specific payload). -/
structure pmem_pool_params where
  type : pmem_pool_type_t
  size : Nat
  mode : Nat
  blk_bsize : Nat
  obj_layout : List Nat
deriving DecidableEq, Repr

/-- What the system calls of one probe yield: whether `open` succeeds, the
header when `pread` returns a whole `struct pool_hdr`, `st_size` and `st_mode`
when `fstat` succeeds, the raw `bsize` member when `pread` returns a whole
`struct pmemblk`, the `layout` bytes when `pread` returns a whole
`struct pmemobjpool`. -/
structure pool_file where
  open_ok : Bool
  hdr : Option pool_hdr
  stat : Option (Nat × Nat)
  pbp_bsize : Option Nat
  pop_layout : Option (List Nat)
deriving DecidableEq, Repr

/-- The system calls `pmem_pool_parse_params` can make. -/
inductive sys_call where
  | sys_open
  | pread_pool_hdr
  | sys_fstat
  | pread_pmemblk
  | pread_pmemobjpool
  | sys_close
deriving DecidableEq, Repr

/-- Embedding of `pmem_pool_parse_params`: the return value, `*paramsp`
afterwards and the system calls made.  `paramsp` is `*paramsp` before the
call. -/
def pmem_pool_parse_params (k : hdr_sigs) (be : Bool) (f : pool_file)
    (paramsp : pmem_pool_params) : Int × pmem_pool_params × List sys_call :=
  let p0 := { paramsp with type := pmem_pool_type_t.PMEM_POOL_TYPE_NONE }
  if f.open_ok = false then (-1, p0, [sys_call.sys_open])
  else
    let p1 := { p0 with type := pmem_pool_type_t.PMEM_POOL_TYPE_UNKNOWN }
    match f.hdr with
    | none => (-1, p1, [sys_call.sys_open, sys_call.pread_pool_hdr, sys_call.sys_close])
    | some hdr =>
      let p2 := { p1 with type := pmem_pool_type_parse_hdr k hdr }
      match f.stat with
      | none =>
        (-1, p2, [sys_call.sys_open, sys_call.pread_pool_hdr, sys_call.sys_fstat,
          sys_call.sys_close])
      | some st =>
        let p3 := { p2 with size := st.1, mode := st.2 }
        if p3.type = pmem_pool_type_t.PMEM_POOL_TYPE_BLK then
          match f.pbp_bsize with
          | some bsize =>
            (0, { p3 with blk_bsize := store32 (le32toh be bsize) },
              [sys_call.sys_open, sys_call.pread_pool_hdr, sys_call.sys_fstat,
                sys_call.pread_pmemblk, sys_call.sys_close])
          | none =>
            (-1, p3, [sys_call.sys_open, sys_call.pread_pool_hdr, sys_call.sys_fstat,
              sys_call.pread_pmemblk, sys_call.sys_close])
        else if p3.type = pmem_pool_type_t.PMEM_POOL_TYPE_OBJ then
          match f.pop_layout with
          | some layout =>
            (0, { p3 with obj_layout := layout },
              [sys_call.sys_open, sys_call.pread_pool_hdr, sys_call.sys_fstat,
                sys_call.pread_pmemobjpool, sys_call.sys_close])
          | none =>
            (-1, p3, [sys_call.sys_open, sys_call.pread_pool_hdr, sys_call.sys_fstat,
              sys_call.pread_pmemobjpool, sys_call.sys_close])
        else
          (0, p3, [sys_call.sys_open, sys_call.pread_pool_hdr, sys_call.sys_fstat,
            sys_call.sys_close])

/-! ## Parsing a file mode -/

/-- Value of a run of octal digits, most significant first. -/
def octal_value (ds : List Char) : Nat :=
  ds.foldl (fun acc c => acc * 8 + (c.toNat - '0'.toNat)) 0

/-- A character is one of `'0'` .. `'7'`. -/
def is_octal (c : Char) : Prop := '0'.toNat ≤ c.toNat ∧ c.toNat ≤ '7'.toNat

instance (c : Char) : Decidable (is_octal c) := by
  unfold is_octal; infer_instance

/-- The second loop of `util_parse_mode`, `while (digits < 3 && *str != '\0')`:
`none` when it returns `-1`, otherwise `m`, `digits` and the unread rest of the
string at the end of the loop.  `m` is a `mode_t` (32 bits). -/
def util_parse_mode_digits : List Char → Nat → Nat → Option (Nat × Nat × List Char)
  | [], m, digits => some (m, digits, [])
  | c :: str, m, digits =>
    if digits < 3 then
      if c.toNat < '0'.toNat ∨ c.toNat > '7'.toNat then none
      else
        util_parse_mode_digits str ((m <<< 3) % 2 ^ 32 ||| (c.toNat - '0'.toNat)) (digits + 1)
    else some (m, digits, c :: str)

/-- Embedding of `util_parse_mode` with a non-null `mode`: the return value and
`*mode` afterwards (`mode` is `*mode` before the call). -/
def util_parse_mode (str : List Char) (mode : Nat) : Int × Nat :=
  match util_parse_mode_digits (str.dropWhile (fun c => c = '0')) 0 0 with
  | none => (-1, mode)
  | some (m, digits, rest) =>
    if digits = 3 ∧ rest ≠ [] then (-1, mode) else (0, m)

/-! ## Zones of a heap -/

/-- The constants of the library header used by `util_heap_max_zone`, values of
type `size_t`. -/
structure heap_consts where
  sizeof_heap_header : Nat
  ZONE_MIN_SIZE : Nat
  ZONE_MAX_SIZE : Nat
deriving DecidableEq, Repr

/-- The zone count of the specification: with `q = s / ZONE_MAX_SIZE` and
`r = s mod ZONE_MAX_SIZE`, `q + 1` if `r ≥ ZONE_MIN_SIZE` and `q` otherwise. -/
def heap_zones (k : heap_consts) (s : Nat) : Nat :=
  if s % k.ZONE_MAX_SIZE ≥ k.ZONE_MIN_SIZE then s / k.ZONE_MAX_SIZE + 1
  else s / k.ZONE_MAX_SIZE

/-- The loop of `util_heap_max_zone` with a bound on the number of iterations:
`none` when the bound is used up before the loop ends.  `max_zone` is an `int`,
`size` a `size_t`. -/
def util_heap_max_zone_loop (k : heap_consts) : Nat → Int → Nat → Option Int
  | 0, _, _ => none
  | fuel + 1, max_zone, size =>
    if size ≥ k.ZONE_MIN_SIZE then
      util_heap_max_zone_loop k fuel (to_int (max_zone + 1))
        (usub64 size (if size ≤ k.ZONE_MAX_SIZE then size else k.ZONE_MAX_SIZE))
    else some max_zone

/-- Embedding of `util_heap_max_zone`.  The loop is given `size + 1` iterations,
`size` being the value after the header is taken off: every iteration of a loop
that ends lowers `size` by at least one. -/
def util_heap_max_zone (k : heap_consts) (size : Nat) : Option Int :=
  util_heap_max_zone_loop k (usub64 size k.sizeof_heap_header + 1) 0
    (usub64 size k.sizeof_heap_header)

/-! ## Checking memory for a single value -/

/-- The loop of `util_check_memory`, `for (i = 0; i < len; i++)`: the first
argument is `len - i`.  A read past the end of the list yields `0`. -/
def util_check_memory_loop (buff : List Nat) (val : Nat) : Nat → Nat → Int
  | 0, _ => 0
  | n + 1, i => if buff.getD i 0 ≠ val then -1 else util_check_memory_loop buff val n (i + 1)

/-- Embedding of `util_check_memory`. -/
def util_check_memory (buff : List Nat) (len : Nat) (val : Nat) : Int :=
  util_check_memory_loop buff val len 0

/-! ## Arithmetic of byte reversal -/

theorem bswap_16_lt (x : Nat) : bswap_16 x < 2 ^ 16 := by
  unfold bswap_16; omega

theorem bswap_32_lt (x : Nat) : bswap_32 x < 2 ^ 32 := by
  unfold bswap_32; omega

theorem bswap_64_lt (x : Nat) : bswap_64 x < 2 ^ 64 := by
  unfold bswap_64; omega

theorem bswap_16_bswap_16 (x : Nat) (h : x < 2 ^ 16) : bswap_16 (bswap_16 x) = x := by
  unfold bswap_16
  have e1 : (x % 256 * 256 + x / 256 % 256) % 256 = x / 256 % 256 := by omega
  have e2 : (x % 256 * 256 + x / 256 % 256) / 256 % 256 = x % 256 := by omega
  rw [e1, e2]
  omega

theorem bswap_32_of_bytes (b0 b1 b2 b3 : Nat) (h0 : b0 < 256) (h1 : b1 < 256)
    (h2 : b2 < 256) (h3 : b3 < 256) :
    bswap_32 (b0 * 16777216 + b1 * 65536 + b2 * 256 + b3) =
      b3 * 16777216 + b2 * 65536 + b1 * 256 + b0 := by
  have e3 : (b0 * 16777216 + b1 * 65536 + b2 * 256 + b3) % 256 = b3 := by omega
  have e2 : (b0 * 16777216 + b1 * 65536 + b2 * 256 + b3) / 256 % 256 = b2 := by omega
  have e1 : (b0 * 16777216 + b1 * 65536 + b2 * 256 + b3) / 65536 % 256 = b1 := by omega
  have e0 : (b0 * 16777216 + b1 * 65536 + b2 * 256 + b3) / 16777216 % 256 = b0 := by omega
  unfold bswap_32
  rw [e0, e1, e2, e3]

theorem bswap_32_bswap_32 (x : Nat) (h : x < 2 ^ 32) : bswap_32 (bswap_32 x) = x := by
  have e : bswap_32 x =
      x % 256 * 16777216 + x / 256 % 256 * 65536 + x / 65536 % 256 * 256 +
        x / 16777216 % 256 := rfl
  rw [e, bswap_32_of_bytes _ _ _ _ (Nat.mod_lt _ (by decide)) (Nat.mod_lt _ (by decide))
    (Nat.mod_lt _ (by decide)) (Nat.mod_lt _ (by decide))]
  clear e
  omega

theorem bswap_64_byte7 (b0 b1 b2 b3 b4 b5 b6 b7 : Nat) (h0 : b0 < 256) (h1 : b1 < 256)
    (h2 : b2 < 256) (h3 : b3 < 256) (h4 : b4 < 256) (h5 : b5 < 256) (h6 : b6 < 256)
    (h7 : b7 < 256) :
    (b0 * 72057594037927936 + b1 * 281474976710656 + b2 * 1099511627776 +
      b3 * 4294967296 + b4 * 16777216 + b5 * 65536 + b6 * 256 + b7) % 256 = b7 := by
  omega

theorem bswap_64_byte6 (b0 b1 b2 b3 b4 b5 b6 b7 : Nat) (h0 : b0 < 256) (h1 : b1 < 256)
    (h2 : b2 < 256) (h3 : b3 < 256) (h4 : b4 < 256) (h5 : b5 < 256) (h6 : b6 < 256)
    (h7 : b7 < 256) :
    (b0 * 72057594037927936 + b1 * 281474976710656 + b2 * 1099511627776 +
      b3 * 4294967296 + b4 * 16777216 + b5 * 65536 + b6 * 256 + b7) / 256 % 256 = b6 := by
  omega

theorem bswap_64_byte5 (b0 b1 b2 b3 b4 b5 b6 b7 : Nat) (h0 : b0 < 256) (h1 : b1 < 256)
    (h2 : b2 < 256) (h3 : b3 < 256) (h4 : b4 < 256) (h5 : b5 < 256) (h6 : b6 < 256)
    (h7 : b7 < 256) :
    (b0 * 72057594037927936 + b1 * 281474976710656 + b2 * 1099511627776 +
      b3 * 4294967296 + b4 * 16777216 + b5 * 65536 + b6 * 256 + b7) / 65536 % 256 = b5 := by
  omega

theorem bswap_64_byte4 (b0 b1 b2 b3 b4 b5 b6 b7 : Nat) (h0 : b0 < 256) (h1 : b1 < 256)
    (h2 : b2 < 256) (h3 : b3 < 256) (h4 : b4 < 256) (h5 : b5 < 256) (h6 : b6 < 256)
    (h7 : b7 < 256) :
    (b0 * 72057594037927936 + b1 * 281474976710656 + b2 * 1099511627776 +
      b3 * 4294967296 + b4 * 16777216 + b5 * 65536 + b6 * 256 + b7) / 16777216 % 256 = b4 := by
  omega

theorem bswap_64_byte3 (b0 b1 b2 b3 b4 b5 b6 b7 : Nat) (h0 : b0 < 256) (h1 : b1 < 256)
    (h2 : b2 < 256) (h3 : b3 < 256) (h4 : b4 < 256) (h5 : b5 < 256) (h6 : b6 < 256)
    (h7 : b7 < 256) :
    (b0 * 72057594037927936 + b1 * 281474976710656 + b2 * 1099511627776 +
      b3 * 4294967296 + b4 * 16777216 + b5 * 65536 + b6 * 256 + b7) / 4294967296 % 256 = b3 := by
  omega

theorem bswap_64_byte2 (b0 b1 b2 b3 b4 b5 b6 b7 : Nat) (h0 : b0 < 256) (h1 : b1 < 256)
    (h2 : b2 < 256) (h3 : b3 < 256) (h4 : b4 < 256) (h5 : b5 < 256) (h6 : b6 < 256)
    (h7 : b7 < 256) :
    (b0 * 72057594037927936 + b1 * 281474976710656 + b2 * 1099511627776 +
      b3 * 4294967296 + b4 * 16777216 + b5 * 65536 + b6 * 256 + b7) / 1099511627776 % 256 = b2 := by
  omega

theorem bswap_64_byte1 (b0 b1 b2 b3 b4 b5 b6 b7 : Nat) (h0 : b0 < 256) (h1 : b1 < 256)
    (h2 : b2 < 256) (h3 : b3 < 256) (h4 : b4 < 256) (h5 : b5 < 256) (h6 : b6 < 256)
    (h7 : b7 < 256) :
    (b0 * 72057594037927936 + b1 * 281474976710656 + b2 * 1099511627776 +
      b3 * 4294967296 + b4 * 16777216 + b5 * 65536 + b6 * 256 + b7) / 281474976710656 % 256 = b1 := by
  omega

theorem bswap_64_byte0 (b0 b1 b2 b3 b4 b5 b6 b7 : Nat) (h0 : b0 < 256) (h1 : b1 < 256)
    (h2 : b2 < 256) (h3 : b3 < 256) (h4 : b4 < 256) (h5 : b5 < 256) (h6 : b6 < 256)
    (h7 : b7 < 256) :
    (b0 * 72057594037927936 + b1 * 281474976710656 + b2 * 1099511627776 +
      b3 * 4294967296 + b4 * 16777216 + b5 * 65536 + b6 * 256 + b7) / 72057594037927936 % 256 = b0 := by
  omega

theorem bswap_64_of_bytes (b0 b1 b2 b3 b4 b5 b6 b7 : Nat) (h0 : b0 < 256) (h1 : b1 < 256)
    (h2 : b2 < 256) (h3 : b3 < 256) (h4 : b4 < 256) (h5 : b5 < 256) (h6 : b6 < 256)
    (h7 : b7 < 256) :
    bswap_64 (b0 * 72057594037927936 + b1 * 281474976710656 + b2 * 1099511627776 +
      b3 * 4294967296 + b4 * 16777216 + b5 * 65536 + b6 * 256 + b7) =
      b7 * 72057594037927936 + b6 * 281474976710656 + b5 * 1099511627776 +
        b4 * 4294967296 + b3 * 16777216 + b2 * 65536 + b1 * 256 + b0 := by
  unfold bswap_64
  rw [bswap_64_byte0 b0 b1 b2 b3 b4 b5 b6 b7 h0 h1 h2 h3 h4 h5 h6 h7,
    bswap_64_byte1 b0 b1 b2 b3 b4 b5 b6 b7 h0 h1 h2 h3 h4 h5 h6 h7,
    bswap_64_byte2 b0 b1 b2 b3 b4 b5 b6 b7 h0 h1 h2 h3 h4 h5 h6 h7,
    bswap_64_byte3 b0 b1 b2 b3 b4 b5 b6 b7 h0 h1 h2 h3 h4 h5 h6 h7,
    bswap_64_byte4 b0 b1 b2 b3 b4 b5 b6 b7 h0 h1 h2 h3 h4 h5 h6 h7,
    bswap_64_byte5 b0 b1 b2 b3 b4 b5 b6 b7 h0 h1 h2 h3 h4 h5 h6 h7,
    bswap_64_byte6 b0 b1 b2 b3 b4 b5 b6 b7 h0 h1 h2 h3 h4 h5 h6 h7,
    bswap_64_byte7 b0 b1 b2 b3 b4 b5 b6 b7 h0 h1 h2 h3 h4 h5 h6 h7]

theorem bswap_64_bswap_64 (x : Nat) (h : x < 2 ^ 64) : bswap_64 (bswap_64 x) = x := by
  have e : bswap_64 x =
      x % 256 * 72057594037927936 + x / 256 % 256 * 281474976710656 +
        x / 65536 % 256 * 1099511627776 + x / 16777216 % 256 * 4294967296 +
        x / 4294967296 % 256 * 16777216 + x / 1099511627776 % 256 * 65536 +
        x / 281474976710656 % 256 * 256 + x / 72057594037927936 % 256 := rfl
  rw [e, bswap_64_of_bytes _ _ _ _ _ _ _ _ (Nat.mod_lt _ (by decide))
    (Nat.mod_lt _ (by decide)) (Nat.mod_lt _ (by decide)) (Nat.mod_lt _ (by decide))
    (Nat.mod_lt _ (by decide)) (Nat.mod_lt _ (by decide)) (Nat.mod_lt _ (by decide))
    (Nat.mod_lt _ (by decide))]
  clear e
  omega

theorem bswap_64_low_half (x : Nat) (h : x < 2 ^ 32) : bswap_64 x % 2 ^ 32 = 0 := by
  have e1 : x / 4294967296 = 0 := by omega
  have e2 : x / 1099511627776 = 0 := by omega
  have e3 : x / 281474976710656 = 0 := by omega
  have e4 : x / 72057594037927936 = 0 := by omega
  unfold bswap_64
  rw [e1, e2, e3, e4]
  omega

/-! ## The first loop of `util_ranges_add` -/

theorem absorb_rest (r : range) (l : List range) (f g : Nat) :
    (util_ranges_add_absorb r l f g).1 =
      l.filter (fun c => decide (util_ranges_overlap c r = 0)) := by
  induction l generalizing f g with
  | nil => rfl
  | cons c cs ih =>
    unfold util_ranges_add_absorb
    by_cases h : util_ranges_overlap c r = 0
    · simp [h, ih]
    · simp [h, ih]

theorem absorb_first_le (r : range) (l : List range) (f g : Nat) :
    (util_ranges_add_absorb r l f g).2.1 ≤ f ∧
      ∀ d ∈ l, util_ranges_overlap d r ≠ 0 → (util_ranges_add_absorb r l f g).2.1 ≤ d.first := by
  induction l generalizing f g with
  | nil => simp [util_ranges_add_absorb]
  | cons c cs ih =>
    unfold util_ranges_add_absorb
    by_cases h : util_ranges_overlap c r = 0
    · simp only [h, ne_eq, not_true_eq_false, if_false]
      refine ⟨(ih f g).1, ?_⟩
      intro d hd hov
      rcases List.mem_cons.mp hd with rfl | hd
      · exact absurd h hov
      · exact (ih f g).2 d hd hov
    · simp only [h, ne_eq, not_false_eq_true, if_true]
      have ih1 := ih (if c.first < f then c.first else f) (if c.last > g then c.last else g)
      have key : (if c.first < f then c.first else f) ≤ f ∧
          (if c.first < f then c.first else f) ≤ c.first := by
        split <;> omega
      refine ⟨le_trans ih1.1 key.1, ?_⟩
      intro d hd hov
      rcases List.mem_cons.mp hd with rfl | hd
      · exact le_trans ih1.1 key.2
      · exact ih1.2 d hd hov

theorem absorb_last_ge (r : range) (l : List range) (f g : Nat) :
    g ≤ (util_ranges_add_absorb r l f g).2.2 ∧
      ∀ d ∈ l, util_ranges_overlap d r ≠ 0 → d.last ≤ (util_ranges_add_absorb r l f g).2.2 := by
  induction l generalizing f g with
  | nil => simp [util_ranges_add_absorb]
  | cons c cs ih =>
    unfold util_ranges_add_absorb
    by_cases h : util_ranges_overlap c r = 0
    · simp only [h, ne_eq, not_true_eq_false, if_false]
      refine ⟨(ih f g).1, ?_⟩
      intro d hd hov
      rcases List.mem_cons.mp hd with rfl | hd
      · exact absurd h hov
      · exact (ih f g).2 d hd hov
    · simp only [h, ne_eq, not_false_eq_true, if_true]
      have ih1 := ih (if c.first < f then c.first else f) (if c.last > g then c.last else g)
      have key : g ≤ (if c.last > g then c.last else g) ∧
          c.last ≤ (if c.last > g then c.last else g) := by
        split <;> omega
      refine ⟨le_trans key.1 ih1.1, ?_⟩
      intro d hd hov
      rcases List.mem_cons.mp hd with rfl | hd
      · exact le_trans key.2 ih1.1
      · exact ih1.2 d hd hov

theorem absorb_first_mem (r : range) (l : List range) (f g : Nat) :
    (util_ranges_add_absorb r l f g).2.1 = f ∨
      ∃ d ∈ l, util_ranges_overlap d r ≠ 0 ∧ (util_ranges_add_absorb r l f g).2.1 = d.first := by
  induction l generalizing f g with
  | nil => simp [util_ranges_add_absorb]
  | cons c cs ih =>
    unfold util_ranges_add_absorb
    by_cases h : util_ranges_overlap c r = 0
    · simp only [h, ne_eq, not_true_eq_false, if_false]
      rcases ih f g with e | ⟨d, hd, hov, e⟩
      · exact Or.inl e
      · exact Or.inr ⟨d, List.mem_cons_of_mem _ hd, hov, e⟩
    · simp only [h, ne_eq, not_false_eq_true, if_true]
      rcases ih (if c.first < f then c.first else f) (if c.last > g then c.last else g) with
        e | ⟨d, hd, hov, e⟩
      · by_cases hc : c.first < f
        · rw [if_pos hc] at e ⊢
          exact Or.inr ⟨c, List.mem_cons_self _ _, h, e⟩
        · rw [if_neg hc] at e ⊢
          exact Or.inl e
      · exact Or.inr ⟨d, List.mem_cons_of_mem _ hd, hov, e⟩

theorem absorb_last_mem (r : range) (l : List range) (f g : Nat) :
    (util_ranges_add_absorb r l f g).2.2 = g ∨
      ∃ d ∈ l, util_ranges_overlap d r ≠ 0 ∧ (util_ranges_add_absorb r l f g).2.2 = d.last := by
  induction l generalizing f g with
  | nil => simp [util_ranges_add_absorb]
  | cons c cs ih =>
    unfold util_ranges_add_absorb
    by_cases h : util_ranges_overlap c r = 0
    · simp only [h, ne_eq, not_true_eq_false, if_false]
      rcases ih f g with e | ⟨d, hd, hov, e⟩
      · exact Or.inl e
      · exact Or.inr ⟨d, List.mem_cons_of_mem _ hd, hov, e⟩
    · simp only [h, ne_eq, not_false_eq_true, if_true]
      rcases ih (if c.first < f then c.first else f) (if c.last > g then c.last else g) with
        e | ⟨d, hd, hov, e⟩
      · by_cases hc : c.last > g
        · rw [if_pos hc] at e ⊢
          exact Or.inr ⟨c, List.mem_cons_self _ _, h, e⟩
        · rw [if_neg hc] at e ⊢
          exact Or.inl e
      · exact Or.inr ⟨d, List.mem_cons_of_mem _ hd, hov, e⟩

/-! ## The second loop of `util_ranges_add` -/

theorem add_after_perm (m : range) (l : List range) :
    ∀ l', util_ranges_add_after m l = some l' → l'.Perm (m :: l) := by
  induction l with
  | nil => intro l' h; simp [util_ranges_add_after] at h
  | cons c cs ih =>
    intro l' h
    unfold util_ranges_add_after at h
    by_cases hc : c.first < m.first
    · rw [if_pos hc] at h
      cases h
      exact List.Perm.swap m c cs
    · rw [if_neg hc] at h
      cases hq : util_ranges_add_after m cs with
      | none => rw [hq] at h; simp at h
      | some q =>
        rw [hq] at h
        simp only [Option.map_some'] at h
        cases h
        exact ((ih q hq).cons c).trans (List.Perm.swap m c cs)

theorem util_ranges_add_perm (s : List range) (r : range) :
    (util_ranges_add s r).Perm
      (⟨(util_ranges_add_absorb r s r.first r.last).2.1,
          (util_ranges_add_absorb r s r.first r.last).2.2⟩ ::
        s.filter (fun c => decide (util_ranges_overlap c r = 0))) := by
  unfold util_ranges_add
  simp only
  rw [absorb_rest]
  split
  · next l' h => exact add_after_perm _ _ l' h
  · exact List.Perm.refl _

/-! ## `util_ranges_overlap` and `util_ranges_contain` -/

theorem overlap_eq_zero_iff_apart (a b : range) (ha : a.last < 2 ^ 64 - 1)
    (hb : b.last < 2 ^ 64 - 1) : util_ranges_overlap a b = 0 ↔ a.apart b := by
  unfold util_ranges_overlap range.apart UINT64_MOD
  have e1 : (a.last + 1) % 2 ^ 64 = a.last + 1 := Nat.mod_eq_of_lt (by omega)
  have e2 : (b.last + 1) % 2 ^ 64 = b.last + 1 := Nat.mod_eq_of_lt (by omega)
  rw [e1, e2]
  constructor
  · intro h
    by_contra hn
    rw [if_neg hn] at h
    exact absurd h (by decide)
  · intro h
    rw [if_pos h]

theorem overlap_ne_zero_touch (a b : range) (ha : a.is_u64) (hb : b.is_u64)
    (h : util_ranges_overlap a b ≠ 0) : b.first ≤ a.last + 1 ∧ a.first ≤ b.last + 1 := by
  unfold util_ranges_overlap at h
  unfold range.is_u64 UINT64_MOD at ha hb
  unfold UINT64_MOD at h
  by_cases hc : (a.last + 1) % 2 ^ 64 < b.first ∨ (b.last + 1) % 2 ^ 64 < a.first
  · rw [if_pos hc] at h
    exact absurd rfl h
  · have h1 : ¬ (a.last + 1) % 2 ^ 64 < b.first := fun x => hc (Or.inl x)
    have h2 : ¬ (b.last + 1) % 2 ^ 64 < a.first := fun x => hc (Or.inr x)
    clear hc h
    constructor <;> omega

theorem apart_symm {a b : range} (h : a.apart b) : b.apart a := by
  unfold range.apart at *
  exact h.symm

theorem util_ranges_contain_iff (l : List range) (n : Nat) :
    util_ranges_contain l n = 1 ↔ ∃ c ∈ l, c.first ≤ n ∧ n ≤ c.last := by
  induction l with
  | nil => simp [util_ranges_contain]
  | cons c cs ih =>
    unfold util_ranges_contain
    by_cases h : c.first ≤ n ∧ n ≤ c.last
    · rw [if_pos h]
      simp only [List.mem_cons, true_iff]
      exact ⟨c, Or.inl rfl, h⟩
    · rw [if_neg h, ih]
      constructor
      · rintro ⟨d, hd, hn⟩
        exact ⟨d, List.mem_cons_of_mem _ hd, hn⟩
      · rintro ⟨d, hd, hn⟩
        rcases List.mem_cons.mp hd with rfl | hd
        · exact absurd hn h
        · exact ⟨d, hd, hn⟩

theorem mem_util_ranges_add (s : List range) (r x : range) :
    x ∈ util_ranges_add s r ↔
      x = ⟨(util_ranges_add_absorb r s r.first r.last).2.1,
          (util_ranges_add_absorb r s r.first r.last).2.2⟩ ∨
        (x ∈ s ∧ util_ranges_overlap x r = 0) := by
  rw [(util_ranges_add_perm s r).mem_iff]
  simp [List.mem_filter]

/-! ## The invariant of a range list built by `util_ranges_add` -/

theorem ranges_inv_add (s : List range) (r : range) (hs : ranges_inv s)
    (hr : r.first ≤ r.last ∧ r.last < 2 ^ 64 - 1) : ranges_inv (util_ranges_add s r) := by
  obtain ⟨hb, hp⟩ := hs
  have hF := absorb_first_mem r s r.first r.last
  have hL := absorb_last_mem r s r.first r.last
  have hFle := absorb_first_le r s r.first r.last
  have hLge := absorb_last_ge r s r.first r.last
  have hperm := util_ranges_add_perm s r
  have hmem := mem_util_ranges_add s r
  generalize (util_ranges_add_absorb r s r.first r.last).2.1 = F at *
  generalize (util_ranges_add_absorb r s r.first r.last).2.2 = L at *
  generalize util_ranges_add s r = res at *
  -- an absorbed element is not apart from `r`
  have habs : ∀ d ∈ s, util_ranges_overlap d r ≠ 0 → ¬ d.apart r := by
    intro d hd hov hap
    exact hov ((overlap_eq_zero_iff_apart d r (hb d hd).2 hr.2).mpr hap)
  have hsym : ∀ a ∈ s, ∀ b ∈ s, a ≠ b → a.apart b :=
    fun a ha b hb' hne => hp.forall (fun _ _ h => apart_symm h) ha hb' hne
  constructor
  · intro c hc
    rcases (hmem c).mp hc with rfl | ⟨hc, _⟩
    · refine ⟨by simp only; omega, ?_⟩
      rcases hL with e | ⟨d, hd, _, e⟩
      · simp only [e]; exact hr.2
      · simp only [e]; exact (hb d hd).2
    · exact hb c hc
  · rw [hperm.pairwise_iff (fun h => apart_symm h), List.pairwise_cons]
    refine ⟨?_, hp.sublist (List.filter_sublist _)⟩
    intro c hc
    rw [List.mem_filter] at hc
    obtain ⟨hcs, hc0⟩ := hc
    have hc0 : util_ranges_overlap c r = 0 := by simpa using hc0
    have hcr : c.apart r := (overlap_eq_zero_iff_apart c r (hb c hcs).2 hr.2).mp hc0
    have hcb := hb c hcs
    have hne : ∀ d ∈ s, util_ranges_overlap d r ≠ 0 → c.apart d := by
      intro d hd hov
      apply hsym c hcs d hd
      rintro rfl
      exact hov hc0
    unfold range.apart at hcr ⊢
    simp only
    rcases hcr with h1 | h1
    · -- `c` lies to the left of `r`
      right
      rcases hF with e | ⟨d, hd, hov, e⟩
      · omega
      · have h2 := hne d hd hov
        have h3 := habs d hd hov
        unfold range.apart at h2 h3
        have := hb d hd
        omega
    · -- `c` lies to the right of `r`
      left
      rcases hL with e | ⟨d, hd, hov, e⟩
      · omega
      · have h2 := hne d hd hov
        have h3 := habs d hd hov
        unfold range.apart at h2 h3
        have := hb d hd
        omega

theorem ranges_inv_add_all (rs s : List range) (hs : ranges_inv s)
    (hrs : ∀ r ∈ rs, r.first ≤ r.last ∧ r.last < 2 ^ 64 - 1) :
    ranges_inv (util_ranges_add_all s rs) := by
  induction rs generalizing s with
  | nil => exact hs
  | cons r rs ih =>
    unfold util_ranges_add_all
    rw [List.foldl_cons]
    exact ih (util_ranges_add s r) (ranges_inv_add s r hs (hrs r (List.mem_cons_self _ _)))
      (fun x hx => hrs x (List.mem_cons_of_mem _ hx))

/-! ## Inserting the same range again -/

theorem absorb_none (r : range) (l : List range) (f g : Nat)
    (hl : ∀ c ∈ l, util_ranges_overlap c r = 0) :
    util_ranges_add_absorb r l f g = (l, f, g) := by
  induction l with
  | nil => rfl
  | cons c cs ih =>
    unfold util_ranges_add_absorb
    have hc := hl c (List.mem_cons_self _ _)
    simp only [hc, ne_eq, not_true_eq_false, if_false]
    rw [ih (fun x hx => hl x (List.mem_cons_of_mem _ hx))]

theorem absorb_one (r m : range) (a b : List range) (f g : Nat)
    (ha : ∀ c ∈ a, util_ranges_overlap c r = 0) (hb : ∀ c ∈ b, util_ranges_overlap c r = 0)
    (hm : util_ranges_overlap m r ≠ 0) :
    util_ranges_add_absorb r (a ++ m :: b) f g =
      (a ++ b, if m.first < f then m.first else f, if m.last > g then m.last else g) := by
  induction a with
  | nil =>
    rw [List.nil_append, List.nil_append]
    unfold util_ranges_add_absorb
    simp only [hm, ne_eq, not_false_eq_true, if_true]
    exact absorb_none r b _ _ hb
  | cons c cs ih =>
    rw [List.cons_append]
    unfold util_ranges_add_absorb
    have hc := ha c (List.mem_cons_self _ _)
    simp only [hc, ne_eq, not_true_eq_false, if_false]
    rw [ih (fun x hx => ha x (List.mem_cons_of_mem _ hx))]
    rfl

theorem add_after_split (m : range) (l : List range) :
    ∀ l', util_ranges_add_after m l = some l' → ∃ a b, l = a ++ b ∧ l' = a ++ m :: b := by
  induction l with
  | nil => intro l' h; simp [util_ranges_add_after] at h
  | cons c cs ih =>
    intro l' h
    unfold util_ranges_add_after at h
    by_cases hc : c.first < m.first
    · rw [if_pos hc] at h
      cases h
      exact ⟨[c], cs, rfl, rfl⟩
    · rw [if_neg hc] at h
      cases hq : util_ranges_add_after m cs with
      | none => rw [hq] at h; simp at h
      | some q =>
        rw [hq] at h
        simp only [Option.map_some'] at h
        cases h
        obtain ⟨a, b, e1, e2⟩ := ih q hq
        exact ⟨c :: a, b, by rw [e1]; rfl, by rw [e2]; rfl⟩

/-- Inserting a range a second time changes nothing, as long as `last + 1` does
not wrap against a positive `first`: the range ends below `UINT64_MAX` or starts
at `0`. -/
theorem util_ranges_add_twice (S : List range) (r : range) (hS : ∀ c ∈ S, c.is_u64)
    (hr : r.is_u64) (hle : r.first ≤ r.last) (hw : r.last < 2 ^ 64 - 1 ∨ r.first = 0) :
    util_ranges_add (util_ranges_add S r) r = util_ranges_add S r := by
  have hF := absorb_first_mem r S r.first r.last
  have hL := absorb_last_mem r S r.first r.last
  have hFle := (absorb_first_le r S r.first r.last).1
  have hLge := (absorb_last_ge r S r.first r.last).1
  have hrest := absorb_rest r S r.first r.last
  have hdef : util_ranges_add S r =
      match util_ranges_add_after ⟨(util_ranges_add_absorb r S r.first r.last).2.1,
          (util_ranges_add_absorb r S r.first r.last).2.2⟩
          (util_ranges_add_absorb r S r.first r.last).1 with
      | some l => l
      | none => ⟨(util_ranges_add_absorb r S r.first r.last).2.1,
          (util_ranges_add_absorb r S r.first r.last).2.2⟩ ::
            (util_ranges_add_absorb r S r.first r.last).1 := rfl
  generalize (util_ranges_add_absorb r S r.first r.last).2.1 = F at *
  generalize (util_ranges_add_absorb r S r.first r.last).2.2 = L at *
  generalize (util_ranges_add_absorb r S r.first r.last).1 = rest at *
  -- the merged range is reported as overlapping `r`
  have hm : util_ranges_overlap ⟨F, L⟩ r ≠ 0 := by
    have hr' := hr
    unfold range.is_u64 UINT64_MOD at hr'
    have hL' : L < 2 ^ 64 ∧ (L = 2 ^ 64 - 1 → r.first = 0) := by
      rcases hL with e | ⟨d, hd, hov, e⟩
      · constructor
        · omega
        · intro h; rcases hw with h1 | h1 <;> omega
      · have hd' := hS d hd
        have ht : ¬ (d.last + 1) % 2 ^ 64 < r.first := by
          intro hlt
          apply hov
          unfold util_ranges_overlap UINT64_MOD
          rw [if_pos (Or.inl hlt)]
        unfold range.is_u64 UINT64_MOD at hd'
        constructor
        · omega
        · intro h; omega
    unfold util_ranges_overlap UINT64_MOD
    have h1 : ¬ (L + 1) % 2 ^ 64 < r.first := by
      obtain ⟨h2, h3⟩ := hL'
      by_cases h4 : L = 2 ^ 64 - 1
      · have := h3 h4; omega
      · omega
    have h2 : ¬ (r.last + 1) % 2 ^ 64 < F := by
      rcases hw with h3 | h3
      · omega
      · omega
    simp only [h1, h2, or_self, if_false]
    decide
  have hnone : ∀ c ∈ rest, util_ranges_overlap c r = 0 := by
    intro c hc
    rw [hrest, List.mem_filter] at hc
    simpa using hc.2
  -- the first insertion puts the merged range somewhere inside `rest`
  have hsplit : ∃ a b, rest = a ++ b ∧ util_ranges_add S r = a ++ ⟨F, L⟩ :: b := by
    cases hq : util_ranges_add_after ⟨F, L⟩ rest with
    | none => rw [hq] at hdef; exact ⟨[], rest, rfl, hdef⟩
    | some q =>
      rw [hq] at hdef
      obtain ⟨a, b, e1, e2⟩ := add_after_split ⟨F, L⟩ rest q hq
      exact ⟨a, b, e1, by rw [hdef]; exact e2⟩
  obtain ⟨a, b, e1, e2⟩ := hsplit
  have hab : util_ranges_add_absorb r (a ++ ⟨F, L⟩ :: b) r.first r.last = (rest, F, L) := by
    rw [absorb_one r ⟨F, L⟩ a b r.first r.last
      (fun c hc => hnone c (by rw [e1]; exact List.mem_append_left _ hc))
      (fun c hc => hnone c (by rw [e1]; exact List.mem_append_right _ hc)) hm, e1]
    have h1 : (if F < r.first then F else r.first) = F := by split <;> omega
    have h2 : (if L > r.last then L else r.last) = L := by split <;> omega
    simp only [h1, h2]
  have hagain : util_ranges_add (a ++ ⟨F, L⟩ :: b) r =
      match util_ranges_add_after ⟨F, L⟩ rest with
      | some l => l
      | none => ⟨F, L⟩ :: rest := by
    unfold util_ranges_add
    simp only [hab]
  rw [e2, hagain, ← hdef, e2]

/-! ## Claims about range lists -/

/-- C1: inserting `[10,20]`, `[25,25]`, `[30,1000]` in this order into an empty
list leaves `[10,20]`, `[30,1000]`, `[25,25]`: each new range is linked after the
first element with a smaller `first`, so the list is not sorted by ascending
`first`. -/
theorem util_ranges_add_order_not_sorted :
    util_ranges_add_all [] [⟨10, 20⟩, ⟨25, 25⟩, ⟨30, 1000⟩] =
        [⟨10, 20⟩, ⟨30, 1000⟩, ⟨25, 25⟩] ∧
      ¬ ranges_sorted (util_ranges_add_all [] [⟨10, 20⟩, ⟨25, 25⟩, ⟨30, 1000⟩]) := by
  decide

/-- C2: after inserting any sequence of ranges with `first ≤ last < 2^64 - 1`
into an empty list, any two elements at different positions are disjoint and
non-adjacent; inserting `[10,20]` then `[15,25]` leaves `[10,25]`, and inserting
`[10,20]` then `[21,30]` leaves `[10,30]`. -/
theorem util_ranges_add_all_apart (rs : List range)
    (hrs : ∀ r ∈ rs, r.first ≤ r.last ∧ r.last < 2 ^ 64 - 1) :
    (∀ (i j : Fin (util_ranges_add_all [] rs).length), i ≠ j →
        ((util_ranges_add_all [] rs).get i).last + 1 < ((util_ranges_add_all [] rs).get j).first ∨
        ((util_ranges_add_all [] rs).get j).last + 1 < ((util_ranges_add_all [] rs).get i).first) ∧
      util_ranges_add_all [] [⟨10, 20⟩, ⟨15, 25⟩] = [⟨10, 25⟩] ∧
      util_ranges_add_all [] [⟨10, 20⟩, ⟨21, 30⟩] = [⟨10, 30⟩] := by
  refine ⟨?_, by decide, by decide⟩
  have hinv := ranges_inv_add_all rs [] ⟨by simp, List.Pairwise.nil⟩ hrs
  have hp := List.pairwise_iff_get.mp hinv.2
  intro i j hij
  rcases Nat.lt_or_gt_of_ne (fun h => hij (Fin.ext h)) with h | h
  · exact hp i j h
  · exact (hp j i h).symm

theorem util_ranges_add_all_apart_witness :
    (∀ r ∈ [(⟨10, 20⟩ : range), ⟨40, 50⟩, ⟨21, 30⟩],
        r.first ≤ r.last ∧ r.last < 2 ^ 64 - 1) ∧
      util_ranges_add_all [] [⟨10, 20⟩, ⟨40, 50⟩, ⟨21, 30⟩] = [⟨10, 30⟩, ⟨40, 50⟩] ∧
      ∀ (i j : Fin (util_ranges_add_all [] [⟨10, 20⟩, ⟨40, 50⟩, ⟨21, 30⟩]).length), i ≠ j →
        ((util_ranges_add_all [] [⟨10, 20⟩, ⟨40, 50⟩, ⟨21, 30⟩]).get i).last + 1 <
            ((util_ranges_add_all [] [⟨10, 20⟩, ⟨40, 50⟩, ⟨21, 30⟩]).get j).first ∨
          ((util_ranges_add_all [] [⟨10, 20⟩, ⟨40, 50⟩, ⟨21, 30⟩]).get j).last + 1 <
            ((util_ranges_add_all [] [⟨10, 20⟩, ⟨40, 50⟩, ⟨21, 30⟩]).get i).first :=
  ⟨by decide, by decide,
    (util_ranges_add_all_apart [⟨10, 20⟩, ⟨40, 50⟩, ⟨21, 30⟩] (by decide)).1⟩

/-- C3: for a list `S` of `uint64_t` ranges with `first ≤ last` and such a range
`r`, `util_ranges_contain` answers `1` for `n` on the list after
`util_ranges_add (S, r)` exactly when it answered `1` on `S` or `n` lies in `r`. -/
theorem util_ranges_add_contain (S : List range) (r : range) (n : Nat)
    (hS : ∀ c ∈ S, c.is_u64 ∧ c.first ≤ c.last) (hr : r.is_u64 ∧ r.first ≤ r.last)
    (hn : n < UINT64_MOD) :
    util_ranges_contain (util_ranges_add S r) n = 1 ↔
      (util_ranges_contain S n = 1 ∨ (r.first ≤ n ∧ n ≤ r.last)) := by
  rw [util_ranges_contain_iff, util_ranges_contain_iff]
  have hF := absorb_first_mem r S r.first r.last
  have hL := absorb_last_mem r S r.first r.last
  have hFle := absorb_first_le r S r.first r.last
  have hLge := absorb_last_ge r S r.first r.last
  have hmem := mem_util_ranges_add S r
  generalize (util_ranges_add_absorb r S r.first r.last).2.1 = F at *
  generalize (util_ranges_add_absorb r S r.first r.last).2.2 = L at *
  constructor
  · rintro ⟨c, hc, hn1, hn2⟩
    rcases (hmem c).mp hc with rfl | ⟨hcs, _⟩
    · simp only at hn1 hn2
      by_cases h1 : n < r.first
      · rcases hF with e | ⟨d, hd, hov, e⟩
        · omega
        · have ht := overlap_ne_zero_touch d r (hS d hd).1 hr.1 hov
          exact Or.inl ⟨d, hd, by omega, by omega⟩
      · by_cases h2 : r.last < n
        · rcases hL with e | ⟨d, hd, hov, e⟩
          · omega
          · have ht := overlap_ne_zero_touch d r (hS d hd).1 hr.1 hov
            exact Or.inl ⟨d, hd, by omega, by omega⟩
        · exact Or.inr ⟨by omega, by omega⟩
    · exact Or.inl ⟨c, hcs, hn1, hn2⟩
  · rintro (⟨c, hcs, hn1, hn2⟩ | ⟨hn1, hn2⟩)
    · by_cases hov : util_ranges_overlap c r = 0
      · exact ⟨c, (hmem c).mpr (Or.inr ⟨hcs, hov⟩), hn1, hn2⟩
      · refine ⟨⟨F, L⟩, (hmem _).mpr (Or.inl rfl), ?_, ?_⟩
        · have := hFle.2 c hcs hov
          simp only; omega
        · have := hLge.2 c hcs hov
          simp only; omega
    · refine ⟨⟨F, L⟩, (hmem _).mpr (Or.inl rfl), ?_, ?_⟩
      · simp only; omega
      · simp only; omega

theorem util_ranges_add_contain_witness :
    (∀ c ∈ [(⟨10, 20⟩ : range), ⟨40, 18446744073709551615⟩], c.is_u64 ∧ c.first ≤ c.last) ∧
      ((⟨21, 30⟩ : range).is_u64 ∧ (21 : Nat) ≤ 30) ∧ 25 < UINT64_MOD ∧
      util_ranges_add [⟨10, 20⟩, ⟨40, 18446744073709551615⟩] ⟨21, 30⟩ =
        [⟨10, 30⟩, ⟨40, 18446744073709551615⟩] ∧
      (util_ranges_contain
          (util_ranges_add [⟨10, 20⟩, ⟨40, 18446744073709551615⟩] ⟨21, 30⟩) 25 = 1 ↔
        (util_ranges_contain [⟨10, 20⟩, ⟨40, 18446744073709551615⟩] 25 = 1 ∨
          ((21 : Nat) ≤ 25 ∧ 25 ≤ 30))) :=
  ⟨by decide, by decide, by decide, by decide,
    util_ranges_add_contain [⟨10, 20⟩, ⟨40, 18446744073709551615⟩] ⟨21, 30⟩ 25
      (by decide) (by decide) (by decide)⟩

/-- C4: inserting `[5, 2^64-1]` twice into an empty list leaves two elements,
while inserting it once leaves one: `last + 1` wraps to `0` in
`util_ranges_overlap`, so the range is not recognised as overlapping itself.
The same list is reached through `util_parse_ranges` on `"5-,5-"` with the
universe `[0, 2^64-1]`. -/
theorem util_ranges_add_twice_wraps :
    util_ranges_add [] ⟨5, 18446744073709551615⟩ = [⟨5, 18446744073709551615⟩] ∧
      util_ranges_add (util_ranges_add [] ⟨5, 18446744073709551615⟩)
          ⟨5, 18446744073709551615⟩ =
        [⟨5, 18446744073709551615⟩, ⟨5, 18446744073709551615⟩] ∧
      util_ranges_overlap ⟨5, 18446744073709551615⟩ ⟨5, 18446744073709551615⟩ = 0 ∧
      util_parse_ranges (some ['5', '-', ',', '5', '-']) [] ⟨0, 18446744073709551615⟩ ⟨0, 0⟩ =
        (0, [⟨5, 18446744073709551615⟩, ⟨5, 18446744073709551615⟩]) := by
  decide

/-! ## Parsing a run of digits -/

theorem isdigit_bounds (c : Char) (h : isdigit c = true) : 48 ≤ c.toNat ∧ c.toNat ≤ 57 := by
  unfold isdigit at h
  simp only [Bool.and_eq_true, decide_eq_true_eq] at h
  exact h

theorem isdigit_not_isspace (c : Char) (h : isdigit c = true) : isspace c = false := by
  have hb := isdigit_bounds c h
  have h1 : c ≠ ' ' := by rintro rfl; revert hb; decide
  have h2 : c ≠ '\t' := by rintro rfl; revert hb; decide
  have h3 : c ≠ '\n' := by rintro rfl; revert hb; decide
  have h4 : c ≠ '\x0b' := by rintro rfl; revert hb; decide
  have h5 : c ≠ '\x0c' := by rintro rfl; revert hb; decide
  have h6 : c ≠ '\r' := by rintro rfl; revert hb; decide
  unfold isspace
  simp [h1, h2, h3, h4, h5, h6]

theorem isdigit_not_sign (c : Char) (h : isdigit c = true) : c ≠ '-' ∧ c ≠ '+' := by
  have hb := isdigit_bounds c h
  constructor
  · rintro rfl; revert hb; decide
  · rintro rfl; revert hb; decide

theorem scan_lu_digits (str : List Char) (hne : str ≠ [])
    (hd : ∀ c ∈ str, isdigit c = true) (hv : decimal_value str < UINT64_MOD) :
    scan_lu str = some (decimal_value str, []) := by
  obtain ⟨c, cs, rfl⟩ := List.exists_cons_of_ne_nil hne
  have hc := hd c (List.mem_cons_self _ _)
  have hsp : ¬ (isspace c = true) := by rw [isdigit_not_isspace c hc]; simp
  have hsign := isdigit_not_sign c hc
  have htake : (c :: cs).takeWhile isdigit = c :: cs := List.takeWhile_eq_self_iff.mpr hd
  have hdrop : (c :: cs).dropWhile isdigit = [] := List.dropWhile_eq_nil_iff.mpr hd
  unfold scan_lu
  simp only [List.dropWhile_cons_of_neg hsp, List.head?_cons, Option.some.injEq, hsign.1,
    hsign.2, or_self, if_false, htake, hdrop]
  simp [Nat.not_le.mpr hv]

theorem util_parse_size_digits (str : List Char) (hne : str ≠ [])
    (hd : ∀ c ∈ str, isdigit c = true) (hv : decimal_value str < UINT64_MOD) :
    util_parse_size str = some (decimal_value str) := by
  unfold util_parse_size
  rw [scan_lu_digits str hne hd hv]
  simp [scan_3s]

/-! ## The loop of `util_parse_ranges` -/

theorem util_parse_ranges_loop_failure (entire range0 : range) (toks : List (List Char)) :
    ∀ S : List range, (util_parse_ranges_loop entire range0 toks S).1 = -1 →
      ∃ pre bad post, toks = pre ++ bad :: post ∧
        (∀ t ∈ pre, (util_parse_range t range0 entire).1 = 0) ∧
        (util_parse_range bad range0 entire).1 ≠ 0 ∧
        (util_parse_ranges_loop entire range0 toks S).2 =
          util_ranges_add_all S (pre.map (fun t => (util_parse_range t range0 entire).2)) := by
  induction toks with
  | nil =>
    intro S h
    simp [util_parse_ranges_loop] at h
  | cons t ts ih =>
    intro S h
    unfold util_parse_ranges_loop at h ⊢
    by_cases hp : (util_parse_range t range0 entire).1 ≠ 0
    · refine ⟨[], t, ts, rfl, by simp, hp, ?_⟩
      simp only [hp, ne_eq, not_false_eq_true, if_true]
      rfl
    · simp only [hp, if_false] at h ⊢
      obtain ⟨pre, bad, post, e, h1, h2, h3⟩ := ih _ h
      refine ⟨t :: pre, bad, post, by rw [e]; rfl, ?_, h2, ?_⟩
      · intro x hx
        rcases List.mem_cons.mp hx with rfl | hx
        · exact not_not.mp hp
        · exact h1 x hx
      · rw [h3]; rfl

/-! ## Claims about parsing ranges -/

/-- C5: `util_parse_range` accepts `"2000-3000"` in the universe `[0, 1000]`
and yields `[2000, 1000]`, which is neither inside the universe nor ordered;
`"2000-"` yields the same range, and `"-5"` in the universe `[100, 1000]` yields
`[100, 5]`.  `util_range_limit` raises `first` and lowers `last` only. -/
theorem util_parse_range_not_clipped :
    util_parse_range ['2', '0', '0', '0', '-', '3', '0', '0', '0'] ⟨0, 0⟩ ⟨0, 1000⟩ =
        (0, ⟨2000, 1000⟩) ∧
      util_parse_range ['2', '0', '0', '0', '-'] ⟨0, 0⟩ ⟨0, 1000⟩ = (0, ⟨2000, 1000⟩) ∧
      util_parse_range ['-', '5'] ⟨0, 0⟩ ⟨100, 1000⟩ = (0, ⟨100, 5⟩) ∧
      util_parse_range ['-', '5'] ⟨0, 0⟩ ⟨0, 1000⟩ = (0, ⟨0, 5⟩) ∧
      util_range_limit ⟨2000, 3000⟩ ⟨0, 1000⟩ = ⟨2000, 1000⟩ := by
  decide

/-- C6, as stated, fails: on `"10-20,x"` with the universe `[0, 1000]` and an
empty list, `util_parse_ranges` returns `-1` and leaves `[10, 20]` in the list. -/
theorem util_parse_ranges_keeps_earlier_tokens :
    util_parse_ranges (some ['1', '0', '-', '2', '0', ',', 'x']) [] ⟨0, 1000⟩ ⟨0, 0⟩ =
        (-1, [⟨10, 20⟩]) ∧
      (util_parse_ranges (some ['1', '0', '-', '2', '0', ',', 'x']) [] ⟨0, 1000⟩ ⟨0, 0⟩).2 ≠ [] := by
  decide

/-- C6, amended: when `util_parse_ranges` returns `-1` on a string, the string's
comma-separated tokens split into accepted tokens, the first rejected token, and
the unprocessed rest, and the list afterwards is the list before with the ranges
of the accepted tokens inserted by `util_ranges_add`, in order. -/
theorem util_parse_ranges_failure_state (str : List Char) (S : List range)
    (entire range0 : range)
    (h : (util_parse_ranges (some str) S entire range0).1 = -1) :
    ∃ pre bad post, comma_tokens str = pre ++ bad :: post ∧
      (∀ t ∈ pre, (util_parse_range t range0 entire).1 = 0) ∧
      (util_parse_range bad range0 entire).1 ≠ 0 ∧
      (util_parse_ranges (some str) S entire range0).2 =
        util_ranges_add_all S (pre.map (fun t => (util_parse_range t range0 entire).2)) :=
  util_parse_ranges_loop_failure entire range0 (comma_tokens str) S h

theorem util_parse_ranges_failure_state_witness :
    (util_parse_ranges (some ['1', '0', '-', '2', '0', ',', 'x', ',', '7']) [⟨30, 40⟩]
        ⟨0, 1000⟩ ⟨0, 0⟩).1 = -1 ∧
      (util_parse_ranges (some ['1', '0', '-', '2', '0', ',', 'x', ',', '7']) [⟨30, 40⟩]
        ⟨0, 1000⟩ ⟨0, 0⟩).2 = [⟨10, 20⟩, ⟨30, 40⟩] ∧
      ∃ pre bad post,
        comma_tokens ['1', '0', '-', '2', '0', ',', 'x', ',', '7'] = pre ++ bad :: post ∧
        (∀ t ∈ pre, (util_parse_range t ⟨0, 0⟩ ⟨0, 1000⟩).1 = 0) ∧
        (util_parse_range bad ⟨0, 0⟩ ⟨0, 1000⟩).1 ≠ 0 ∧
        (util_parse_ranges (some ['1', '0', '-', '2', '0', ',', 'x', ',', '7']) [⟨30, 40⟩]
            ⟨0, 1000⟩ ⟨0, 0⟩).2 =
          util_ranges_add_all [⟨30, 40⟩]
            (pre.map (fun t => (util_parse_range t ⟨0, 0⟩ ⟨0, 1000⟩).2)) :=
  ⟨by decide, by decide,
    util_parse_ranges_failure_state ['1', '0', '-', '2', '0', ',', 'x', ',', '7'] [⟨30, 40⟩]
      ⟨0, 1000⟩ ⟨0, 0⟩ (by decide)⟩

/-- C7: for a token that is a non-empty run of decimal digits with value `n`
below `2^64`, `util_parse_range_number` returns `0` exactly when
`entire.first ≤ n ≤ entire.last`, the range is then `[n, n]`, and every other
return value is `-1`; `"2000"` in the universe `[0, 1000]` is rejected. -/
theorem util_parse_range_number_in_universe (str : List Char) (rangep entire : range)
    (hne : str ≠ []) (hd : ∀ c ∈ str, isdigit c = true)
    (hv : decimal_value str < UINT64_MOD) :
    ((util_parse_range_number str rangep entire).1 = 0 ↔
        entire.first ≤ decimal_value str ∧ decimal_value str ≤ entire.last) ∧
      ((util_parse_range_number str rangep entire).1 = 0 →
        (util_parse_range_number str rangep entire).2 =
          ⟨decimal_value str, decimal_value str⟩) ∧
      ((util_parse_range_number str rangep entire).1 ≠ 0 →
        (util_parse_range_number str rangep entire).1 = -1) ∧
      (util_parse_range_number ['2', '0', '0', '0'] rangep ⟨0, 1000⟩).1 = -1 := by
  have key : ∀ s : List Char, s ≠ [] → (∀ c ∈ s, isdigit c = true) →
      decimal_value s < UINT64_MOD →
      util_parse_range_number s rangep entire =
        if decimal_value s > entire.last ∨ decimal_value s < entire.first then
          (-1, ⟨decimal_value s, decimal_value s⟩)
        else (0, util_range_limit ⟨decimal_value s, decimal_value s⟩ entire) := by
    intro s h1 h2 h3
    unfold util_parse_range_number
    rw [util_parse_size_digits s h1 h2 h3]
  rw [key str hne hd hv]
  refine ⟨?_, ?_, ?_, ?_⟩
  · by_cases hc : decimal_value str > entire.last ∨ decimal_value str < entire.first
    · rw [if_pos hc]
      simp only [Int.reduceNeg, Int.neg_eq_zero, one_ne_zero, false_iff]
      omega
    · rw [if_neg hc]
      simp only [true_iff]
      omega
  · by_cases hc : decimal_value str > entire.last ∨ decimal_value str < entire.first
    · rw [if_pos hc]
      intro h
      simp at h
    · rw [if_neg hc]
      intro _
      unfold util_range_limit
      have h1 : ¬ decimal_value str < entire.first := fun x => hc (Or.inr x)
      have h2 : ¬ decimal_value str > entire.last := fun x => hc (Or.inl x)
      simp [h1, h2]
  · by_cases hc : decimal_value str > entire.last ∨ decimal_value str < entire.first
    · rw [if_pos hc]; intro _; rfl
    · rw [if_neg hc]; intro h; exact absurd rfl h
  · unfold util_parse_range_number
    have e : util_parse_size ['2', '0', '0', '0'] = some 2000 := by decide
    rw [e]
    rfl

theorem util_parse_range_number_in_universe_witness :
    (['7', '5', '0'] : List Char) ≠ [] ∧ (∀ c ∈ ['7', '5', '0'], isdigit c = true) ∧
      decimal_value ['7', '5', '0'] < UINT64_MOD ∧
      decimal_value ['7', '5', '0'] = 750 ∧
      util_parse_range_number ['7', '5', '0'] ⟨3, 4⟩ ⟨0, 1000⟩ = (0, ⟨750, 750⟩) ∧
      ((util_parse_range_number ['7', '5', '0'] ⟨3, 4⟩ ⟨0, 1000⟩).1 = 0 ↔
        (0 : Nat) ≤ decimal_value ['7', '5', '0'] ∧ decimal_value ['7', '5', '0'] ≤ 1000) :=
  ⟨by decide, by decide, by decide, by decide, by decide,
    (util_parse_range_number_in_universe ['7', '5', '0'] ⟨3, 4⟩ ⟨0, 1000⟩
      (by decide) (by decide) (by decide)).1⟩

/-! ## Conversion there and back on one field -/

theorem store16_round_trip (be : Bool) (x : Nat) (h : x < 2 ^ 16) :
    store16 (le16toh be (store16 (htole16 be x))) = x ∧
      store16 (htole16 be (store16 (le16toh be x))) = x := by
  cases be
  · show x % 2 ^ 16 % 2 ^ 16 = x ∧ x % 2 ^ 16 % 2 ^ 16 = x
    rw [Nat.mod_eq_of_lt h, Nat.mod_eq_of_lt h]
    exact ⟨rfl, rfl⟩
  · show bswap_16 (bswap_16 x % 2 ^ 16) % 2 ^ 16 = x ∧
      bswap_16 (bswap_16 x % 2 ^ 16) % 2 ^ 16 = x
    rw [Nat.mod_eq_of_lt (bswap_16_lt x), bswap_16_bswap_16 x h, Nat.mod_eq_of_lt h]
    exact ⟨rfl, rfl⟩

theorem store32_round_trip (be : Bool) (x : Nat) (h : x < 2 ^ 32) :
    store32 (le32toh be (store32 (htole32 be x))) = x ∧
      store32 (htole32 be (store32 (le32toh be x))) = x := by
  cases be
  · show x % 2 ^ 32 % 2 ^ 32 = x ∧ x % 2 ^ 32 % 2 ^ 32 = x
    rw [Nat.mod_eq_of_lt h, Nat.mod_eq_of_lt h]
    exact ⟨rfl, rfl⟩
  · show bswap_32 (bswap_32 x % 2 ^ 32) % 2 ^ 32 = x ∧
      bswap_32 (bswap_32 x % 2 ^ 32) % 2 ^ 32 = x
    rw [Nat.mod_eq_of_lt (bswap_32_lt x), bswap_32_bswap_32 x h, Nat.mod_eq_of_lt h]
    exact ⟨rfl, rfl⟩

theorem store64_round_trip (be : Bool) (x : Nat) (h : x < 2 ^ 64) :
    store64 (le64toh be (store64 (htole64 be x))) = x ∧
      store64 (htole64 be (store64 (le64toh be x))) = x := by
  cases be
  · show x % 2 ^ 64 % 2 ^ 64 = x ∧ x % 2 ^ 64 % 2 ^ 64 = x
    rw [Nat.mod_eq_of_lt h, Nat.mod_eq_of_lt h]
    exact ⟨rfl, rfl⟩
  · show bswap_64 (bswap_64 x % 2 ^ 64) % 2 ^ 64 = x ∧
      bswap_64 (bswap_64 x % 2 ^ 64) % 2 ^ 64 = x
    rw [Nat.mod_eq_of_lt (bswap_64_lt x), bswap_64_bswap_64 x h, Nat.mod_eq_of_lt h]
    exact ⟨rfl, rfl⟩

/-- On a little-endian host the two `btt_info` conversions are inverse to each
other on every field, `flags` included. -/
theorem util_convert_btt_info_little_endian (x : btt_info) (hx : x.wf) :
    util_convert2h_btt_info false (util_convert2le_btt_info false x) = x ∧
      util_convert2le_btt_info false (util_convert2h_btt_info false x) = x := by
  obtain ⟨h1, h2, h3, h4, h5, h6, h7, h8, h9, h10, h11, h12, h13, h14⟩ := hx
  cases x
  simp only at h1 h2 h3 h4 h5 h6 h7 h8 h9 h10 h11 h12 h13 h14
  simp only [util_convert2h_btt_info, util_convert2le_btt_info, store16, store32, store64,
    le16toh, le32toh, le64toh, htole16, htole32, htole64, Bool.false_eq_true, if_false,
    Nat.mod_mod, Nat.mod_eq_of_lt h1, Nat.mod_eq_of_lt h2, Nat.mod_eq_of_lt h3,
    Nat.mod_eq_of_lt h4, Nat.mod_eq_of_lt h5, Nat.mod_eq_of_lt h6, Nat.mod_eq_of_lt h7,
    Nat.mod_eq_of_lt h8, Nat.mod_eq_of_lt h9, Nat.mod_eq_of_lt h10, Nat.mod_eq_of_lt h11,
    Nat.mod_eq_of_lt h12, Nat.mod_eq_of_lt h13, Nat.mod_eq_of_lt h14, and_self]

/-- On a big-endian host `util_convert2le_btt_info` stores `0` into `flags`,
whatever the field held. -/
theorem util_convert2le_btt_info_flags_big_endian (x : btt_info) (hx : x.flags < 2 ^ 32) :
    (util_convert2le_btt_info true x).flags = 0 := by
  simp only [util_convert2le_btt_info, store32, htole64, if_true]
  exact bswap_64_low_half x.flags hx

/-! ## Claims about byte-order conversion -/

/-- C8: on a big-endian host the `btt_info` whose `flags` is `1` (all other
fields `0`) does not survive either round trip: `util_convert2le_btt_info`
converts the 32-bit `flags` with `htole64` and stores `0`.  On a little-endian
host the same value survives. -/
theorem util_convert_btt_info_flags_lost :
    (util_convert2le_btt_info true ⟨1, 0, 0, 0, 0, 0, 0, 0, 0, 0, 0, 0, 0, 0, []⟩).flags = 0 ∧
      (util_convert2h_btt_info true
        (util_convert2le_btt_info true ⟨1, 0, 0, 0, 0, 0, 0, 0, 0, 0, 0, 0, 0, 0, []⟩)).flags = 0 ∧
      util_convert2h_btt_info true
          (util_convert2le_btt_info true ⟨1, 0, 0, 0, 0, 0, 0, 0, 0, 0, 0, 0, 0, 0, []⟩) ≠
        ⟨1, 0, 0, 0, 0, 0, 0, 0, 0, 0, 0, 0, 0, 0, []⟩ ∧
      util_convert2le_btt_info true
          (util_convert2h_btt_info true ⟨1, 0, 0, 0, 0, 0, 0, 0, 0, 0, 0, 0, 0, 0, []⟩) ≠
        ⟨1, 0, 0, 0, 0, 0, 0, 0, 0, 0, 0, 0, 0, 0, []⟩ ∧
      util_convert2h_btt_info false
          (util_convert2le_btt_info false ⟨1, 0, 0, 0, 0, 0, 0, 0, 0, 0, 0, 0, 0, 0, []⟩) =
        ⟨1, 0, 0, 0, 0, 0, 0, 0, 0, 0, 0, 0, 0, 0, []⟩ := by
  decide

/-- C9: on either host, for every `struct pool_hdr`, `struct btt_flog` and
`struct pmemlog` whose fields fit their C types, converting to little-endian and
back to host order, or to host order and back to little-endian, returns the
value started from. -/
theorem util_convert_round_trip (be : Bool) (h : pool_hdr) (f : btt_flog) (p : pmemlog)
    (hh : h.wf) (hf : f.wf) (hp : p.wf) :
    util_convert2h_pool_hdr be (util_convert2le_pool_hdr be h) = h ∧
      util_convert2le_pool_hdr be (util_convert2h_pool_hdr be h) = h ∧
      util_convert2h_btt_flog be (util_convert2le_btt_flog be f) = f ∧
      util_convert2le_btt_flog be (util_convert2h_btt_flog be f) = f ∧
      util_convert2h_pmemlog be (util_convert2le_pmemlog be p) = p ∧
      util_convert2le_pmemlog be (util_convert2h_pmemlog be p) = p := by
  obtain ⟨a1, a2, a3, a4, a5⟩ := hh
  obtain ⟨b1, b2, b3, b4⟩ := hf
  obtain ⟨c1, c2, c3⟩ := hp
  cases h
  cases f
  cases p
  simp only at a1 a2 a3 a4 a5 b1 b2 b3 b4 c1 c2 c3
  simp only [util_convert2h_pool_hdr, util_convert2le_pool_hdr, util_convert2h_btt_flog,
    util_convert2le_btt_flog, util_convert2h_pmemlog, util_convert2le_pmemlog,
    (store32_round_trip be _ a1).1, (store32_round_trip be _ a1).2,
    (store32_round_trip be _ a2).1, (store32_round_trip be _ a2).2,
    (store32_round_trip be _ a3).1, (store32_round_trip be _ a3).2,
    (store64_round_trip be _ a4).1, (store64_round_trip be _ a4).2,
    (store64_round_trip be _ a5).1, (store64_round_trip be _ a5).2,
    (store32_round_trip be _ b1).1, (store32_round_trip be _ b1).2,
    (store32_round_trip be _ b2).1, (store32_round_trip be _ b2).2,
    (store32_round_trip be _ b3).1, (store32_round_trip be _ b3).2,
    (store32_round_trip be _ b4).1, (store32_round_trip be _ b4).2,
    (store64_round_trip be _ c1).1, (store64_round_trip be _ c1).2,
    (store64_round_trip be _ c2).1, (store64_round_trip be _ c2).2,
    (store64_round_trip be _ c3).1, (store64_round_trip be _ c3).2, and_self]

theorem util_convert_round_trip_witness :
    (⟨[80, 77, 69, 77, 66, 76, 75, 0], 4294967295, 1, 2, 18446744073709551615, 258, [1]⟩ :
        pool_hdr).wf ∧
      (⟨4294967295, 1, 256, 0⟩ : btt_flog).wf ∧
      (⟨⟨[], 0, 0, 0, 0, 0, []⟩, 8192, 18446744073709551615, 258, []⟩ : pmemlog).wf ∧
      (util_convert2le_pool_hdr true
          ⟨[80, 77, 69, 77, 66, 76, 75, 0], 4294967295, 1, 2, 18446744073709551615, 258,
            [1]⟩).checksum = 144396663052566528 ∧
      util_convert2h_pool_hdr true (util_convert2le_pool_hdr true
          ⟨[80, 77, 69, 77, 66, 76, 75, 0], 4294967295, 1, 2, 18446744073709551615, 258,
            [1]⟩) =
        ⟨[80, 77, 69, 77, 66, 76, 75, 0], 4294967295, 1, 2, 18446744073709551615, 258, [1]⟩ :=
  ⟨by decide, by decide, by decide, by decide,
    (util_convert_round_trip true
      ⟨[80, 77, 69, 77, 66, 76, 75, 0], 4294967295, 1, 2, 18446744073709551615, 258, [1]⟩
      ⟨4294967295, 1, 256, 0⟩
      ⟨⟨[], 0, 0, 0, 0, 0, []⟩, 8192, 18446744073709551615, 258, []⟩
      (by decide) (by decide) (by decide)).1⟩

/-- C10: on either host, `util_convert2h_pool_hdr` and
`util_convert2le_pool_hdr` leave the signature bytes and every member other than
`compat_features`, `incompat_features`, `ro_compat_features`, `crtime` and
`checksum` as they were. -/
theorem util_convert_pool_hdr_frame (be : Bool) (h : pool_hdr) :
    (util_convert2h_pool_hdr be h).signature = h.signature ∧
      (util_convert2h_pool_hdr be h).other = h.other ∧
      (util_convert2le_pool_hdr be h).signature = h.signature ∧
      (util_convert2le_pool_hdr be h).other = h.other ∧
      util_convert2h_pool_hdr be h =
        ⟨h.signature, store32 (le32toh be h.compat_features),
          store32 (le32toh be h.incompat_features),
          store32 (le32toh be h.ro_compat_features), store64 (le64toh be h.crtime),
          store64 (le64toh be h.checksum), h.other⟩ ∧
      util_convert2le_pool_hdr be h =
        ⟨h.signature, store32 (htole32 be h.compat_features),
          store32 (htole32 be h.incompat_features),
          store32 (htole32 be h.ro_compat_features), store64 (htole64 be h.crtime),
          store64 (htole64 be h.checksum), h.other⟩ :=
  ⟨rfl, rfl, rfl, rfl, rfl, rfl⟩


/-! ## Stores through the checksum pointer -/

theorem le_bytes64_length (v : Nat) : (le_bytes64 v).length = 8 := rfl

theorem store_csum_length (addr : List Nat) (csump : Nat) (bytes : List Nat)
    (h : csump + 8 ≤ addr.length) (hb : bytes.length = 8) :
    (store_csum addr csump bytes).length = addr.length := by
  unfold store_csum
  simp only [List.length_append, List.length_take, List.length_drop, hb]
  omega

theorem csum_field_store_csum (addr : List Nat) (csump : Nat) (bytes : List Nat)
    (h : csump + 8 ≤ addr.length) (hb : bytes.length = 8) :
    csum_field (store_csum addr csump bytes) csump = bytes := by
  unfold csum_field store_csum
  have h1 : (addr.take csump).length = csump := by
    rw [List.length_take]; omega
  rw [List.append_assoc, List.drop_left' h1, List.take_left' hb]

theorem store_csum_store_csum (addr : List Nat) (csump : Nat) (b1 b2 : List Nat)
    (h : csump + 8 ≤ addr.length) (hb : b1.length = 8) :
    store_csum (store_csum addr csump b1) csump b2 = store_csum addr csump b2 := by
  unfold store_csum
  have h1 : (addr.take csump).length = csump := by
    rw [List.length_take]; omega
  have h2 : (addr.take csump ++ b1).length = csump + 8 := by
    rw [List.length_append, h1, hb]
  rw [List.drop_left' h2, List.append_assoc (List.take csump addr) b1, List.take_left' h1]

theorem store_csum_csum_field (addr : List Nat) (csump : Nat) :
    store_csum addr csump (csum_field addr csump) = addr := by
  unfold store_csum csum_field
  have e : List.drop (csump + 8) addr = List.drop 8 (List.drop csump addr) := by
    rw [List.drop_drop]
  rw [e, List.append_assoc, List.take_append_drop, List.take_append_drop]

theorem store_csum_outside (addr : List Nat) (csump : Nat) (bytes : List Nat) (i : Nat)
    (h : csump + 8 ≤ addr.length) (hb : bytes.length = 8) (hi : i < csump ∨ csump + 8 ≤ i) :
    (store_csum addr csump bytes)[i]? = addr[i]? := by
  unfold store_csum
  have h1 : (addr.take csump).length = csump := by
    rw [List.length_take]; omega
  have h2 : (addr.take csump ++ bytes).length = csump + 8 := by
    rw [List.length_append, h1, hb]
  rcases hi with hi | hi
  · rw [List.append_assoc, List.getElem?_append_left (by omega), List.getElem?_take_of_lt hi]
  · rw [List.getElem?_append_right (by omega), h2, List.getElem?_drop]
    congr 1
    omega

theorem checksum_of_store_csum (alg : List Nat → Nat) (addr : List Nat) (csump : Nat)
    (bytes : List Nat) (h : csump + 8 ≤ addr.length) (hb : bytes.length = 8) :
    checksum_of alg (store_csum addr csump bytes) csump = checksum_of alg addr csump := by
  unfold checksum_of
  rw [store_csum_store_csum addr csump bytes _ h hb]

theorem util_validate_checksum_eq (alg : List Nat → Nat) (addr : List Nat) (csum : Nat) :
    util_validate_checksum alg addr csum =
      if csum_field addr csum = le_bytes64 (checksum_of alg addr csum) then (1, addr)
      else (0, store_csum addr csum (le_bytes64 (checksum_of alg addr csum))) := by
  unfold util_validate_checksum util_checksum
  by_cases h : csum_field addr csum = le_bytes64 (checksum_of alg addr csum)
  · simp [h]
  · simp [h]

/-! ## Claims about checksum validation -/

/-- C11, as stated, fails: on the 12-byte buffer `01 00 00 00` followed by a
checksum field of eight `09` bytes (Fletcher checksum as the algorithm),
`util_validate_checksum` returns `0` and the checksum field afterwards holds
`01 00 00 00 03 00 00 00`, so the buffer is not the one passed in. -/
theorem util_validate_checksum_overwrites_field :
    util_validate_checksum fletcher64 [1, 0, 0, 0, 9, 9, 9, 9, 9, 9, 9, 9] 4 =
        (0, [1, 0, 0, 0, 1, 0, 0, 0, 3, 0, 0, 0]) ∧
      (util_validate_checksum fletcher64 [1, 0, 0, 0, 9, 9, 9, 9, 9, 9, 9, 9] 4).2 ≠
        [1, 0, 0, 0, 9, 9, 9, 9, 9, 9, 9, 9] := by
  decide

/-- C11, amended: when the checksum field inside the buffer does not hold the
computed checksum, `util_validate_checksum` returns `0`, leaves the length and
every byte outside the checksum field as they were, and leaves the computed
checksum (little-endian) in the checksum field. -/
theorem util_validate_checksum_mismatch (alg : List Nat → Nat) (addr : List Nat) (csum : Nat)
    (hin : csum + 8 ≤ addr.length)
    (hbad : csum_field addr csum ≠ le_bytes64 (checksum_of alg addr csum)) :
    (util_validate_checksum alg addr csum).1 = 0 ∧
      (util_validate_checksum alg addr csum).2.length = addr.length ∧
      (∀ i, i < csum ∨ csum + 8 ≤ i →
        (util_validate_checksum alg addr csum).2[i]? = addr[i]?) ∧
      csum_field (util_validate_checksum alg addr csum).2 csum =
        le_bytes64 (checksum_of alg addr csum) ∧
      (util_validate_checksum alg addr csum).2 ≠ addr := by
  rw [util_validate_checksum_eq, if_neg hbad]
  refine ⟨rfl, store_csum_length addr csum _ hin rfl, ?_,
    csum_field_store_csum addr csum _ hin rfl, ?_⟩
  · intro i hi
    exact store_csum_outside addr csum _ i hin rfl hi
  · intro h
    apply hbad
    have := csum_field_store_csum addr csum (le_bytes64 (checksum_of alg addr csum)) hin rfl
    simp only at h
    rw [h] at this
    exact this

theorem util_validate_checksum_mismatch_witness :
    4 + 8 ≤ [1, 0, 0, 0, 9, 9, 9, 9, 9, 9, 9, 9, 7].length ∧
      csum_field [1, 0, 0, 0, 9, 9, 9, 9, 9, 9, 9, 9, 7] 4 ≠
        le_bytes64 (checksum_of fletcher64 [1, 0, 0, 0, 9, 9, 9, 9, 9, 9, 9, 9, 7] 4) ∧
      util_validate_checksum fletcher64 [1, 0, 0, 0, 9, 9, 9, 9, 9, 9, 9, 9, 7] 4 =
        (0, [1, 0, 0, 0, 1, 0, 0, 0, 3, 0, 0, 0, 7]) ∧
      csum_field (util_validate_checksum fletcher64
          [1, 0, 0, 0, 9, 9, 9, 9, 9, 9, 9, 9, 7] 4).2 4 =
        le_bytes64 (checksum_of fletcher64 [1, 0, 0, 0, 9, 9, 9, 9, 9, 9, 9, 9, 7] 4) :=
  ⟨by decide, by decide, by decide,
    (util_validate_checksum_mismatch fletcher64 [1, 0, 0, 0, 9, 9, 9, 9, 9, 9, 9, 9, 7] 4
      (by decide) (by decide)).2.2.2.1⟩

/-- C12: `util_validate_checksum` returns non-zero exactly when the checksum
field holds the checksum computed with the field treated as zero, and then the
buffer is left the same; and on the buffer whose checksum field holds the value
the call yields through `*csum` (the buffer the call leaves), a following call
returns non-zero and leaves that value. -/
theorem util_validate_checksum_stable (alg : List Nat → Nat) (addr : List Nat) (csum : Nat)
    (hin : csum + 8 ≤ addr.length) :
    ((util_validate_checksum alg addr csum).1 ≠ 0 ↔
        csum_field addr csum = le_bytes64 (checksum_of alg addr csum)) ∧
      ((util_validate_checksum alg addr csum).1 ≠ 0 →
        (util_validate_checksum alg addr csum).2 = addr) ∧
      store_csum addr csum (csum_field (util_validate_checksum alg addr csum).2 csum) =
        (util_validate_checksum alg addr csum).2 ∧
      csum_field (util_validate_checksum alg addr csum).2 csum =
        le_bytes64 (checksum_of alg addr csum) ∧
      util_validate_checksum alg (util_validate_checksum alg addr csum).2 csum =
        (1, (util_validate_checksum alg addr csum).2) := by
  rw [util_validate_checksum_eq]
  by_cases h : csum_field addr csum = le_bytes64 (checksum_of alg addr csum)
  · rw [if_pos h]
    refine ⟨by simp [h], fun _ => rfl, store_csum_csum_field addr csum, h, ?_⟩
    rw [util_validate_checksum_eq, if_pos h]
  · rw [if_neg h]
    have hf := csum_field_store_csum addr csum (le_bytes64 (checksum_of alg addr csum)) hin rfl
    refine ⟨by simp [h], fun h0 => absurd rfl h0, ?_, hf, ?_⟩
    · simp only
      rw [hf]
    · rw [util_validate_checksum_eq]
      simp only
      rw [checksum_of_store_csum alg addr csum (le_bytes64 (checksum_of alg addr csum)) hin rfl,
        if_pos hf]

theorem util_validate_checksum_stable_witness :
    4 + 8 ≤ [1, 0, 0, 0, 9, 9, 9, 9, 9, 9, 9, 9].length ∧
      (util_validate_checksum fletcher64 [1, 0, 0, 0, 9, 9, 9, 9, 9, 9, 9, 9] 4).2 =
        [1, 0, 0, 0, 1, 0, 0, 0, 3, 0, 0, 0] ∧
      util_validate_checksum fletcher64
          (util_validate_checksum fletcher64 [1, 0, 0, 0, 9, 9, 9, 9, 9, 9, 9, 9] 4).2 4 =
        (1, (util_validate_checksum fletcher64 [1, 0, 0, 0, 9, 9, 9, 9, 9, 9, 9, 9] 4).2) :=
  ⟨by decide, by decide,
    (util_validate_checksum_stable fletcher64 [1, 0, 0, 0, 9, 9, 9, 9, 9, 9, 9, 9] 4
      (by decide)).2.2.2.2⟩

/-! ## `strncmp` -/

theorem strncmp_eq_zero_trans (n : Nat) :
    ∀ s a b : List Nat, strncmp s a n = 0 → strncmp s b n = 0 → strncmp a b n = 0 := by
  induction n with
  | zero => intro s a b _ _; rfl
  | succ n ih =>
    intro s a b ha hb
    unfold strncmp at ha hb ⊢
    by_cases h1 : s.headD 0 = a.headD 0
    · by_cases h2 : s.headD 0 = b.headD 0
      · have h3 : a.headD 0 = b.headD 0 := by rw [← h1, ← h2]
        simp only [h1, h2, h3, ne_eq, not_true_eq_false, if_false] at ha hb ⊢
        by_cases h4 : b.headD 0 = 0
        · simp only [h4, if_true]
        · simp only [h4, if_false] at ha hb ⊢
          exact ih s.tail a.tail b.tail ha hb
      · simp only [ne_eq, h2, not_false_eq_true, if_true] at hb
        omega
    · simp only [ne_eq, h1, not_false_eq_true, if_true] at ha
      omega

theorem strncmp_take (n : Nat) :
    ∀ s b : List Nat, strncmp (s.take n) b n = strncmp s b n := by
  induction n with
  | zero => intro s b; rfl
  | succ n ih =>
    intro s b
    cases s with
    | nil => rfl
    | cons x xs =>
      unfold strncmp
      simp only [List.take_succ_cons, List.headD_cons, List.tail_cons]
      rw [ih xs b.tail]

/-! ## Claims about the pool type -/

/-- C13: with registered signatures no two of which compare equal under
`strncmp` over `POOL_HDR_SIG_LEN` bytes, `pmem_pool_type_parse_hdr` returns
`PMEM_POOL_TYPE_LOG`, `PMEM_POOL_TYPE_BLK` or `PMEM_POOL_TYPE_OBJ` exactly when the
signature field compares equal to `LOG_HDR_SIG`, `BLK_HDR_SIG` or `OBJ_HDR_SIG`
respectively, `PMEM_POOL_TYPE_UNKNOWN` exactly when it compares equal to none of
them, and never `PMEM_POOL_TYPE_NONE`. -/
theorem pmem_pool_type_parse_hdr_by_signature (k : hdr_sigs) (hdrp : pool_hdr)
    (hlb : strncmp k.LOG_HDR_SIG k.BLK_HDR_SIG k.POOL_HDR_SIG_LEN ≠ 0)
    (hlo : strncmp k.LOG_HDR_SIG k.OBJ_HDR_SIG k.POOL_HDR_SIG_LEN ≠ 0)
    (hbo : strncmp k.BLK_HDR_SIG k.OBJ_HDR_SIG k.POOL_HDR_SIG_LEN ≠ 0) :
    (pmem_pool_type_parse_hdr k hdrp = pmem_pool_type_t.PMEM_POOL_TYPE_LOG ↔
        strncmp hdrp.signature k.LOG_HDR_SIG k.POOL_HDR_SIG_LEN = 0) ∧
      (pmem_pool_type_parse_hdr k hdrp = pmem_pool_type_t.PMEM_POOL_TYPE_BLK ↔
        strncmp hdrp.signature k.BLK_HDR_SIG k.POOL_HDR_SIG_LEN = 0) ∧
      (pmem_pool_type_parse_hdr k hdrp = pmem_pool_type_t.PMEM_POOL_TYPE_OBJ ↔
        strncmp hdrp.signature k.OBJ_HDR_SIG k.POOL_HDR_SIG_LEN = 0) ∧
      (pmem_pool_type_parse_hdr k hdrp = pmem_pool_type_t.PMEM_POOL_TYPE_UNKNOWN ↔
        strncmp hdrp.signature k.LOG_HDR_SIG k.POOL_HDR_SIG_LEN ≠ 0 ∧
          strncmp hdrp.signature k.BLK_HDR_SIG k.POOL_HDR_SIG_LEN ≠ 0 ∧
          strncmp hdrp.signature k.OBJ_HDR_SIG k.POOL_HDR_SIG_LEN ≠ 0) ∧
      pmem_pool_type_parse_hdr k hdrp ≠ pmem_pool_type_t.PMEM_POOL_TYPE_NONE := by
  have x1 : strncmp hdrp.signature k.LOG_HDR_SIG k.POOL_HDR_SIG_LEN = 0 →
      strncmp hdrp.signature k.BLK_HDR_SIG k.POOL_HDR_SIG_LEN ≠ 0 :=
    fun a b => hlb (strncmp_eq_zero_trans _ _ _ _ a b)
  have x2 : strncmp hdrp.signature k.LOG_HDR_SIG k.POOL_HDR_SIG_LEN = 0 →
      strncmp hdrp.signature k.OBJ_HDR_SIG k.POOL_HDR_SIG_LEN ≠ 0 :=
    fun a b => hlo (strncmp_eq_zero_trans _ _ _ _ a b)
  have x3 : strncmp hdrp.signature k.BLK_HDR_SIG k.POOL_HDR_SIG_LEN = 0 →
      strncmp hdrp.signature k.OBJ_HDR_SIG k.POOL_HDR_SIG_LEN ≠ 0 :=
    fun a b => hbo (strncmp_eq_zero_trans _ _ _ _ a b)
  unfold pmem_pool_type_parse_hdr
  by_cases hl : strncmp hdrp.signature k.LOG_HDR_SIG k.POOL_HDR_SIG_LEN = 0
  · have hb := x1 hl
    have ho := x2 hl
    simp [hl, hb, ho]
  · by_cases hb : strncmp hdrp.signature k.BLK_HDR_SIG k.POOL_HDR_SIG_LEN = 0
    · have ho := x3 hb
      simp [hl, hb, ho]
    · by_cases ho : strncmp hdrp.signature k.OBJ_HDR_SIG k.POOL_HDR_SIG_LEN = 0
      · simp [hl, hb, ho]
      · simp [hl, hb, ho]

theorem pmem_pool_type_parse_hdr_by_signature_witness :
    strncmp library_sigs.LOG_HDR_SIG library_sigs.BLK_HDR_SIG library_sigs.POOL_HDR_SIG_LEN ≠ 0 ∧
      strncmp library_sigs.LOG_HDR_SIG library_sigs.OBJ_HDR_SIG
        library_sigs.POOL_HDR_SIG_LEN ≠ 0 ∧
      strncmp library_sigs.BLK_HDR_SIG library_sigs.OBJ_HDR_SIG
        library_sigs.POOL_HDR_SIG_LEN ≠ 0 ∧
      pmem_pool_type_parse_hdr library_sigs
          ⟨[80, 77, 69, 77, 66, 76, 75, 0], 1, 2, 3, 4, 5, [6]⟩ =
        pmem_pool_type_t.PMEM_POOL_TYPE_BLK ∧
      pmem_pool_type_parse_hdr library_sigs
          ⟨[80, 77, 69, 77, 66, 76, 75, 88], 1, 2, 3, 4, 5, [6]⟩ =
        pmem_pool_type_t.PMEM_POOL_TYPE_UNKNOWN ∧
      (pmem_pool_type_parse_hdr library_sigs
            ⟨[80, 77, 69, 77, 66, 76, 75, 0], 1, 2, 3, 4, 5, [6]⟩ =
          pmem_pool_type_t.PMEM_POOL_TYPE_BLK ↔
        strncmp [80, 77, 69, 77, 66, 76, 75, 0] library_sigs.BLK_HDR_SIG
          library_sigs.POOL_HDR_SIG_LEN = 0) :=
  ⟨by decide, by decide, by decide, by decide, by decide,
    (pmem_pool_type_parse_hdr_by_signature library_sigs
      ⟨[80, 77, 69, 77, 66, 76, 75, 0], 1, 2, 3, 4, 5, [6]⟩
      (by decide) (by decide) (by decide)).2.1⟩

/-- C14: two pool headers whose signature fields hold the same
`POOL_HDR_SIG_LEN` bytes get the same pool type, whatever their other fields
hold. -/
theorem pmem_pool_type_parse_hdr_signature_only (k : hdr_sigs) (h1 h2 : pool_hdr)
    (hsig : h1.signature.take k.POOL_HDR_SIG_LEN = h2.signature.take k.POOL_HDR_SIG_LEN) :
    pmem_pool_type_parse_hdr k h1 = pmem_pool_type_parse_hdr k h2 := by
  unfold pmem_pool_type_parse_hdr
  rw [← strncmp_take _ h1.signature, ← strncmp_take _ h1.signature,
    ← strncmp_take _ h1.signature, hsig, strncmp_take, strncmp_take, strncmp_take]

theorem pmem_pool_type_parse_hdr_signature_only_witness :
    ([80, 77, 69, 77, 79, 66, 74, 0, 255] : List Nat).take library_sigs.POOL_HDR_SIG_LEN =
        ([80, 77, 69, 77, 79, 66, 74, 0] : List Nat).take library_sigs.POOL_HDR_SIG_LEN ∧
      pmem_pool_type_parse_hdr library_sigs
          ⟨[80, 77, 69, 77, 79, 66, 74, 0], 0, 0, 0, 0, 0, []⟩ =
        pmem_pool_type_t.PMEM_POOL_TYPE_OBJ ∧
      pmem_pool_type_parse_hdr library_sigs
          ⟨[80, 77, 69, 77, 79, 66, 74, 0, 255], 4294967295, 7, 1, 1431470000, 99, [1, 2, 3]⟩ =
        pmem_pool_type_parse_hdr library_sigs
          ⟨[80, 77, 69, 77, 79, 66, 74, 0], 0, 0, 0, 0, 0, []⟩ :=
  ⟨by decide, by decide,
    pmem_pool_type_parse_hdr_signature_only library_sigs
      ⟨[80, 77, 69, 77, 79, 66, 74, 0, 255], 4294967295, 7, 1, 1431470000, 99, [1, 2, 3]⟩
      ⟨[80, 77, 69, 77, 79, 66, 74, 0], 0, 0, 0, 0, 0, []⟩ (by decide)⟩


/-! ## Arithmetic of `roundup` and of wrapping subtraction -/

theorem roundup_bounds (x y : Nat) (hy : 0 < y) :
    x ≤ roundup x y ∧ roundup x y < x + y ∧ roundup x y = y * ((x + (y - 1)) / y) := by
  unfold roundup
  have h1 := Nat.div_add_mod (x + (y - 1)) y
  have h2 := Nat.mod_lt (x + (y - 1)) hy
  have h3 : (x + (y - 1)) / y * y = y * ((x + (y - 1)) / y) := Nat.mul_comm _ _
  rw [h3]
  generalize y * ((x + (y - 1)) / y) = p at *
  generalize (x + (y - 1)) % y = r at *
  omega

theorem roundup_mono (x1 x2 y : Nat) (h : x1 ≤ x2) : roundup x1 y ≤ roundup x2 y := by
  unfold roundup
  exact Nat.mul_le_mul_right _ (Nat.div_le_div_right (by omega))

theorem usub64_eq (a b : Nat) (hb : b ≤ a) (ha : a < 2 ^ 64) : usub64 a b = a - b := by
  unfold usub64
  omega

theorem usub32_eq (a b : Nat) (hb : b ≤ a) (ha : a < 2 ^ 32) : usub32 a b = a - b := by
  unfold usub32
  omega

theorem usub32_lt (a b : Nat) : usub32 a b < 2 ^ 32 := by
  unfold usub32
  exact Nat.mod_lt _ (by decide)

theorem roundup64_eq (x y : Nat) (hy : 0 < y) (h : x + y ≤ 2 ^ 64) (hy2 : y < 2 ^ 64) :
    roundup64 x y = roundup x y := by
  have hb := roundup_bounds x y hy
  unfold roundup64
  have e1 : x % 2 ^ 64 = x := Nat.mod_eq_of_lt (by omega)
  have e2 : y % 2 ^ 64 = y := Nat.mod_eq_of_lt (by omega)
  have e3 : usub64 y 1 = y - 1 := usub64_eq y 1 (by omega) (by omega)
  have e4 : (x + (y - 1)) % 2 ^ 64 = x + (y - 1) := Nat.mod_eq_of_lt (by omega)
  rw [e1, e2, e3, e4]
  exact Nat.mod_eq_of_lt (by unfold roundup at hb; omega)

theorem roundup32_eq (x y : Nat) (hy : 0 < y) (h : x + y ≤ 2 ^ 32) (hy2 : y < 2 ^ 32) :
    roundup32 x y = roundup x y := by
  have hb := roundup_bounds x y hy
  unfold roundup32
  have e1 : x % 2 ^ 32 = x := Nat.mod_eq_of_lt (by omega)
  have e2 : y % 2 ^ 32 = y := Nat.mod_eq_of_lt (by omega)
  have e3 : usub32 y 1 = y - 1 := usub32_eq y 1 (by omega) (by omega)
  have e4 : (x + (y - 1)) % 2 ^ 32 = x + (y - 1) := Nat.mod_eq_of_lt (by omega)
  rw [e1, e2, e3, e4]
  exact Nat.mod_eq_of_lt (by unfold roundup at hb; omega)

theorem to_int_eq (x : Int) (h0 : 0 ≤ x) (h1 : x < 2 ^ 31) : to_int x = x := by
  unfold to_int
  omega

/-! ## `util_get_max_bsize` without wrap -/

theorem flog_size_eq (c : btt_consts) (hf : c.fits) :
    util_get_max_bsize_flog_size c = (flog_region c : Int) := by
  obtain ⟨h1, h2, h3, h4, _, _, h7, h8, _, _, _, _⟩ := hf
  have e1 : c.BTT_DEFAULT_NFREE % 2 ^ 32 = c.BTT_DEFAULT_NFREE := Nat.mod_eq_of_lt (by omega)
  have e2 : roundup64 (2 * c.sizeof_btt_flog) c.BTT_FLOG_PAIR_ALIGN =
      roundup (2 * c.sizeof_btt_flog) c.BTT_FLOG_PAIR_ALIGN :=
    roundup64_eq _ _ h3 (by omega) (by omega)
  unfold util_get_max_bsize_flog_size flog_region
  simp only [e1, e2]
  clear e1 e2 h7 h1 h2 h3
  generalize c.BTT_DEFAULT_NFREE * roundup (2 * c.sizeof_btt_flog) c.BTT_FLOG_PAIR_ALIGN = np
    at h8 ⊢
  generalize c.BTT_ALIGNMENT = al at h4 h8 ⊢
  clear * - h4 h8
  have h8' : np + al ≤ 2147483648 := h8
  clear h8
  have e3 : np % 2 ^ 64 = np := Nat.mod_eq_of_lt (by omega)
  rw [e3]
  clear e3
  have e4 : to_int (np : Int) = (np : Int) := to_int_eq _ (by omega) (by omega)
  have e5 : to_int ((al : Int) - 1) = (al : Int) - 1 := to_int_eq _ (by omega) (by omega)
  have e6 : (np : Int) + ((al : Int) - 1) = ((np + (al - 1) : Nat) : Int) := by omega
  rw [e4, e5, e6]
  clear e4 e5 e6
  have e7 : to_int ((np + (al - 1) : Nat) : Int) = ((np + (al - 1) : Nat) : Int) :=
    to_int_eq _ (by omega) (by omega)
  rw [e7, ← Int.ofNat_tdiv]
  clear e7
  have hq : (np + (al - 1)) / al ≤ np + (al - 1) := Nat.div_le_self _ _
  have hm : (np + (al - 1)) / al * al ≤ np + (al - 1) := Nat.div_mul_le_self _ _
  generalize hqd : (np + (al - 1)) / al = q at hq hm ⊢
  have e8 : to_int ((q : Nat) : Int) = ((q : Nat) : Int) :=
    to_int_eq _ (by omega) (by omega)
  rw [e8, ← Nat.cast_mul]
  unfold roundup
  rw [hqd]
  generalize q * al = m at hm ⊢
  exact to_int_eq _ (by omega) (by omega)

theorem arena_eq (c : btt_consts) (fsize : Nat) (hf : c.fits)
    (hfeas : min_feasible_size c ≤ fsize) (h64 : fsize < 2 ^ 64) :
    util_get_max_bsize_arena c fsize =
      min (fsize - c.sizeof_pmemblk) c.BTT_MAX_ARENA - 2 * c.sizeof_btt_info - flog_region c := by
  unfold util_get_max_bsize_arena
  rw [flog_size_eq c hf]
  obtain ⟨_, _, _, _, _, _, _, _, h9, h10, _, _⟩ := hf
  unfold min_feasible_size at hfeas
  generalize flog_region c = F at h9 hfeas ⊢
  generalize 2 * c.BTT_DEFAULT_NFREE * c.BTT_MAP_ENTRY_SIZE = K at h9 hfeas
  generalize c.sizeof_pmemblk = pb at hfeas ⊢
  generalize c.sizeof_btt_info = bi at h9 hfeas ⊢
  generalize c.BTT_MAX_ARENA = mx at h9 h10 ⊢
  generalize c.BTT_ALIGNMENT = al at h9 hfeas
  clear * - h9 h10 hfeas h64
  have e0 : fsize % 2 ^ 64 = fsize := Nat.mod_eq_of_lt h64
  have e1 : usub64 fsize pb = fsize - pb := usub64_eq _ _ (by omega) h64
  have e2 : mx % 2 ^ 64 = mx := Nat.mod_eq_of_lt h10
  rw [e0, e1, e2]
  clear e0 e1 e2
  have e3 : (if fsize - pb > mx then mx else fsize - pb) = min (fsize - pb) mx := by
    split <;> omega
  simp only [e3]
  clear e3
  have e4 : usub64 (min (fsize - pb) mx) (2 * bi) = min (fsize - pb) mx - 2 * bi :=
    usub64_eq _ _ (by omega) (by omega)
  rw [e4]
  clear e4
  omega

theorem arena_nat_bounds (c : btt_consts) (fsize : Nat) (hf : c.fits)
    (hfeas : min_feasible_size c ≤ fsize) :
    c.BTT_ALIGNMENT + 2 * c.BTT_DEFAULT_NFREE * c.BTT_MAP_ENTRY_SIZE ≤ arena_nat c fsize ∧
      arena_nat c fsize ≤ c.BTT_MAX_ARENA ∧
      c.sizeof_pmemblk ≤ fsize ∧
      2 * c.sizeof_btt_info + flog_region c ≤ min (fsize - c.sizeof_pmemblk) c.BTT_MAX_ARENA := by
  obtain ⟨_, _, _, _, _, _, _, _, h9, _, _, _⟩ := hf
  unfold min_feasible_size at hfeas
  unfold arena_nat
  generalize flog_region c = F at h9 hfeas ⊢
  generalize 2 * c.BTT_DEFAULT_NFREE * c.BTT_MAP_ENTRY_SIZE = K at h9 hfeas ⊢
  clear * - h9 hfeas
  omega

theorem quotient_bounds (c : btt_consts) (fsize : Nat) (hf : c.fits)
    (hfeas : min_feasible_size c ≤ fsize) :
    c.BTT_MAP_ENTRY_SIZE ≤
        (arena_nat c fsize - c.BTT_ALIGNMENT) / (2 * c.BTT_DEFAULT_NFREE) ∧
      (arena_nat c fsize - c.BTT_ALIGNMENT) / (2 * c.BTT_DEFAULT_NFREE) ≤
        c.BTT_MAX_ARENA / (2 * c.BTT_DEFAULT_NFREE) := by
  have hb := arena_nat_bounds c fsize hf hfeas
  obtain ⟨h1, _, _, _, _, _, _, _, _, _, _, _⟩ := hf
  constructor
  · rw [Nat.le_div_iff_mul_le (by omega)]
    have e : c.BTT_MAP_ENTRY_SIZE * (2 * c.BTT_DEFAULT_NFREE) =
        2 * c.BTT_DEFAULT_NFREE * c.BTT_MAP_ENTRY_SIZE := Nat.mul_comm _ _
    rw [e]
    generalize 2 * c.BTT_DEFAULT_NFREE * c.BTT_MAP_ENTRY_SIZE = K at hb ⊢
    clear * - hb
    omega
  · apply Nat.div_le_div_right
    clear * - hb
    omega

theorem clamped_nat_bounds (c : btt_consts) (fsize : Nat) (hf : c.fits)
    (hfeas : min_feasible_size c ≤ fsize) :
    0 < clamped_nat c fsize ∧ c.BTT_MIN_LBA_SIZE ≤ clamped_nat c fsize ∧
      clamped_nat c fsize + c.BTT_INTERNAL_LBA_ALIGNMENT ≤ 2 ^ 32 := by
  have hq := quotient_bounds c fsize hf hfeas
  obtain ⟨_, _, _, _, _, h6, _, _, _, _, h11, h12⟩ := hf
  unfold clamped_nat
  generalize (arena_nat c fsize - c.BTT_ALIGNMENT) / (2 * c.BTT_DEFAULT_NFREE) = q at hq ⊢
  generalize c.BTT_MAX_ARENA / (2 * c.BTT_DEFAULT_NFREE) = qm at hq h11
  clear * - hq h6 h11 h12
  omega

theorem lbasize_eq (c : btt_consts) (fsize : Nat) (hf : c.fits)
    (hfeas : min_feasible_size c ≤ fsize) (h64 : fsize < 2 ^ 64) :
    util_get_max_bsize_lbasize c fsize = clamped_nat c fsize := by
  have hb := arena_nat_bounds c fsize hf hfeas
  have hq := quotient_bounds c fsize hf hfeas
  have ha : util_get_max_bsize_arena c fsize = arena_nat c fsize := arena_eq c fsize hf hfeas h64
  obtain ⟨h1, h2, _, _, h5, h6, _, _, _, h10, h11, h12⟩ := hf
  unfold util_get_max_bsize_lbasize clamped_nat
  rw [ha]
  have e1 : 2 * (c.BTT_DEFAULT_NFREE % 2 ^ 32) % 2 ^ 32 = 2 * c.BTT_DEFAULT_NFREE := by
    clear * - h2
    omega
  have e2 : usub64 (arena_nat c fsize) c.BTT_ALIGNMENT = arena_nat c fsize - c.BTT_ALIGNMENT := by
    apply usub64_eq
    · clear * - hb
      omega
    · clear * - hb h10
      omega
  simp only [e1, e2]
  clear e1 e2 ha
  generalize (arena_nat c fsize - c.BTT_ALIGNMENT) / (2 * c.BTT_DEFAULT_NFREE) = q at hq ⊢
  generalize c.BTT_MAX_ARENA / (2 * c.BTT_DEFAULT_NFREE) = qm at hq h11
  clear * - hq h5 h6 h11 h12
  have e3 : usub64 q c.BTT_MAP_ENTRY_SIZE = q - c.BTT_MAP_ENTRY_SIZE :=
    usub64_eq _ _ hq.1 (by omega)
  have e4 : (q - c.BTT_MAP_ENTRY_SIZE) % 2 ^ 32 = q - c.BTT_MAP_ENTRY_SIZE :=
    Nat.mod_eq_of_lt (by omega)
  have e5 : c.BTT_MIN_LBA_SIZE % 2 ^ 32 = c.BTT_MIN_LBA_SIZE := Nat.mod_eq_of_lt (by omega)
  rw [e3, e4, e5]
  clear e3 e4 e5
  split <;> omega

theorem util_get_max_bsize_eq (c : btt_consts) (fsize : Nat) (hf : c.fits)
    (hfeas : min_feasible_size c ≤ fsize) (h64 : fsize < 2 ^ 64) :
    util_get_max_bsize c fsize =
        roundup (clamped_nat c fsize) c.BTT_INTERNAL_LBA_ALIGNMENT -
          c.BTT_INTERNAL_LBA_ALIGNMENT ∧
      c.BTT_INTERNAL_LBA_ALIGNMENT ≤
        roundup (clamped_nat c fsize) c.BTT_INTERNAL_LBA_ALIGNMENT ∧
      roundup (clamped_nat c fsize) c.BTT_INTERNAL_LBA_ALIGNMENT < 2 ^ 32 := by
  have hl := lbasize_eq c fsize hf hfeas h64
  have hc := clamped_nat_bounds c fsize hf hfeas
  have h5 : 0 < c.BTT_INTERNAL_LBA_ALIGNMENT := hf.2.2.2.2.1
  have h4 : 0 < c.BTT_ALIGNMENT := hf.2.2.2.1
  have hpos : fsize ≠ 0 := by
    unfold min_feasible_size at hfeas
    clear * - hfeas h4
    omega
  have hr := roundup_bounds (clamped_nat c fsize) c.BTT_INTERNAL_LBA_ALIGNMENT h5
  have hge : c.BTT_INTERNAL_LBA_ALIGNMENT ≤
      roundup (clamped_nat c fsize) c.BTT_INTERNAL_LBA_ALIGNMENT := by
    rw [hr.2.2]
    apply Nat.le_mul_of_pos_right
    rcases Nat.eq_zero_or_pos
        ((clamped_nat c fsize + (c.BTT_INTERNAL_LBA_ALIGNMENT - 1)) /
          c.BTT_INTERNAL_LBA_ALIGNMENT) with h0 | h0
    · have h3 := hr.1
      rw [hr.2.2, h0] at h3
      have := hc.1
      clear * - h3 this
      omega
    · exact h0
  have hlt : roundup (clamped_nat c fsize) c.BTT_INTERNAL_LBA_ALIGNMENT < 2 ^ 32 := by
    have := hr.2.1
    have := hc.2.2
    clear * - this hr
    omega
  refine ⟨?_, hge, hlt⟩
  unfold util_get_max_bsize
  rw [if_neg hpos, hl, roundup32_eq _ _ h5 hc.2.2 (by clear * - hc h5; omega)]
  exact usub32_eq _ _ hge hlt

theorem arena_nat_cast (c : btt_consts) (fsize : Nat) (hf : c.fits)
    (hfeas : min_feasible_size c ≤ fsize) :
    ((arena_nat c fsize : Nat) : Int) = arena_formula c (fsize : Int) := by
  have hb := arena_nat_bounds c fsize hf hfeas
  unfold arena_nat at hb ⊢
  unfold arena_formula
  generalize flog_region c = F at hb ⊢
  generalize 2 * c.BTT_DEFAULT_NFREE * c.BTT_MAP_ENTRY_SIZE = K at hb
  clear * - hb
  omega

theorem clamped_nat_cast (c : btt_consts) (fsize : Nat) (hf : c.fits)
    (hfeas : min_feasible_size c ≤ fsize) :
    ((clamped_nat c fsize : Nat) : Int) = clamped_formula c (fsize : Int) := by
  have hb := arena_nat_bounds c fsize hf hfeas
  have hq := quotient_bounds c fsize hf hfeas
  have ha := arena_nat_cast c fsize hf hfeas
  unfold clamped_nat clamped_formula
  rw [← ha]
  have hal : c.BTT_ALIGNMENT ≤ arena_nat c fsize := by
    clear * - hb
    omega
  rw [Nat.cast_max, Nat.cast_sub hq.1, Int.ofNat_ediv, Nat.cast_sub hal, Nat.cast_mul,
    Nat.cast_ofNat]

theorem roundup_cast (x y : Nat) (hy : 0 < y) :
    ((roundup x y : Nat) : Int) = roundup_int (x : Int) (y : Int) := by
  unfold roundup roundup_int
  rw [Nat.cast_mul, Int.ofNat_ediv, Nat.cast_add, Nat.cast_sub hy, Nat.cast_one]

/-! ## Claims about the block size limit -/

/-- C15: `util_get_max_bsize (0) = 0`, and for constants that fit their C types
and every `fsize` from the minimum feasible size up to `2^64 - 1` the result
equals the capacity formula computed over the integers; `flog_size`,
`arena_size` and the clamped `internal_lbasize` hold the integer values too, so
no subtraction wraps and no narrowing loses anything. -/
theorem util_get_max_bsize_formula (c : btt_consts) (fsize : Nat) (hf : c.fits)
    (hfeas : min_feasible_size c ≤ fsize) (h64 : fsize < 2 ^ 64) :
    util_get_max_bsize c 0 = 0 ∧
      ((util_get_max_bsize c fsize : Nat) : Int) = max_bsize_formula c (fsize : Int) ∧
      util_get_max_bsize_flog_size c = (flog_region c : Int) ∧
      ((util_get_max_bsize_arena c fsize : Nat) : Int) = arena_formula c (fsize : Int) ∧
      ((util_get_max_bsize_lbasize c fsize : Nat) : Int) = clamped_formula c (fsize : Int) ∧
      (c.sizeof_pmemblk : Int) ≤ (fsize : Int) ∧
      (c.BTT_ALIGNMENT : Int) ≤ arena_formula c (fsize : Int) ∧
      (c.BTT_MAP_ENTRY_SIZE : Int) ≤
        (arena_formula c (fsize : Int) - (c.BTT_ALIGNMENT : Int)) /
          (2 * (c.BTT_DEFAULT_NFREE : Int)) ∧
      (c.BTT_INTERNAL_LBA_ALIGNMENT : Int) ≤
        roundup_int (clamped_formula c (fsize : Int)) (c.BTT_INTERNAL_LBA_ALIGNMENT : Int) := by
  have he := util_get_max_bsize_eq c fsize hf hfeas h64
  have hb := arena_nat_bounds c fsize hf hfeas
  have hq := quotient_bounds c fsize hf hfeas
  have ha := arena_nat_cast c fsize hf hfeas
  have hc := clamped_nat_cast c fsize hf hfeas
  have h5 : 0 < c.BTT_INTERNAL_LBA_ALIGNMENT := hf.2.2.2.2.1
  have hr := roundup_cast (clamped_nat c fsize) c.BTT_INTERNAL_LBA_ALIGNMENT h5
  rw [hc] at hr
  refine ⟨rfl, ?_, flog_size_eq c hf, ?_, ?_, ?_, ?_, ?_, ?_⟩
  · rw [he.1, Nat.cast_sub he.2.1, hr]
    rfl
  · rw [arena_eq c fsize hf hfeas h64]
    exact ha
  · rw [lbasize_eq c fsize hf hfeas h64, hc]
  · exact_mod_cast hb.2.2.1
  · rw [← ha]
    have : c.BTT_ALIGNMENT ≤ arena_nat c fsize := by
      clear * - hb
      omega
    exact_mod_cast this
  · rw [← ha]
    have hal : c.BTT_ALIGNMENT ≤ arena_nat c fsize := by
      clear * - hb
      omega
    have e : ((arena_nat c fsize : Nat) : Int) - (c.BTT_ALIGNMENT : Int) =
        ((arena_nat c fsize - c.BTT_ALIGNMENT : Nat) : Int) := (Nat.cast_sub hal).symm
    have e2 : 2 * (c.BTT_DEFAULT_NFREE : Int) = ((2 * c.BTT_DEFAULT_NFREE : Nat) : Int) := by
      rw [Nat.cast_mul, Nat.cast_ofNat]
    rw [e, e2, ← Int.ofNat_ediv]
    exact_mod_cast hq.1
  · rw [← hr]
    exact_mod_cast he.2.1

theorem util_get_max_bsize_formula_witness :
    library_btt_consts.fits ∧ min_feasible_size library_btt_consts ≤ 1000000 ∧
      (1000000 : Nat) < 2 ^ 64 ∧
      util_get_max_bsize library_btt_consts 1000000 = 1792 ∧
      max_bsize_formula library_btt_consts ((1000000 : Nat) : Int) = 1792 ∧
      ((util_get_max_bsize library_btt_consts 1000000 : Nat) : Int) =
        max_bsize_formula library_btt_consts ((1000000 : Nat) : Int) :=
  ⟨by decide, by decide, by decide, by decide, by decide,
    (util_get_max_bsize_formula library_btt_consts 1000000 (by decide) (by decide)
      (by decide)).2.1⟩


theorem clamped_nat_mono (c : btt_consts) (f1 f2 : Nat) (h : f1 ≤ f2) :
    clamped_nat c f1 ≤ clamped_nat c f2 := by
  unfold clamped_nat
  have ha : arena_nat c f1 - c.BTT_ALIGNMENT ≤ arena_nat c f2 - c.BTT_ALIGNMENT := by
    unfold arena_nat
    generalize flog_region c = F
    clear * - h
    omega
  have hq := Nat.div_le_div_right (c := 2 * c.BTT_DEFAULT_NFREE) ha
  generalize (arena_nat c f1 - c.BTT_ALIGNMENT) / (2 * c.BTT_DEFAULT_NFREE) = q1 at hq ⊢
  generalize (arena_nat c f2 - c.BTT_ALIGNMENT) / (2 * c.BTT_DEFAULT_NFREE) = q2 at hq ⊢
  clear * - hq
  omega

/-- C16: for constants that fit their C types and file sizes `f1 ≤ f2` from the
minimum feasible size up to `2^64 - 1`,
`util_get_max_bsize (f1) ≤ util_get_max_bsize (f2)`; and
`util_get_max_bsize (0) = 0`. -/
theorem util_get_max_bsize_monotone (c : btt_consts) (f1 f2 : Nat) (hf : c.fits)
    (h1 : min_feasible_size c ≤ f1) (h12 : f1 ≤ f2) (h2 : f2 < 2 ^ 64) :
    util_get_max_bsize c f1 ≤ util_get_max_bsize c f2 ∧ util_get_max_bsize c 0 = 0 := by
  refine ⟨?_, rfl⟩
  rw [(util_get_max_bsize_eq c f1 hf h1 (by omega)).1,
    (util_get_max_bsize_eq c f2 hf (by omega) h2).1]
  exact Nat.sub_le_sub_right (roundup_mono _ _ _ (clamped_nat_mono c f1 f2 h12)) _

theorem util_get_max_bsize_monotone_witness :
    library_btt_consts.fits ∧ min_feasible_size library_btt_consts ≤ 34904 ∧
      (34904 : Nat) ≤ 1000000 ∧ (1000000 : Nat) < 2 ^ 64 ∧
      util_get_max_bsize library_btt_consts 34904 = 256 ∧
      util_get_max_bsize library_btt_consts 1000000 = 1792 ∧
      util_get_max_bsize library_btt_consts 34904 ≤
        util_get_max_bsize library_btt_consts 1000000 :=
  ⟨by decide, by decide, by decide, by decide, by decide, by decide,
    (util_get_max_bsize_monotone library_btt_consts 34904 1000000 (by decide) (by decide)
      (by decide) (by decide)).1⟩

/-- C17: with the library's constants, `util_get_max_bsize (1)` is `1073741568`,
the value for a file that holds a whole arena of `BTT_MAX_ARENA` bytes:
`1 - sizeof (struct pmemblk)` wraps and is capped.  One byte below the minimum
feasible size (`34903`) the result is `4294967040`, from a quotient of `3` less
`BTT_MAP_ENTRY_SIZE`.  No failure is reported in either case. -/
theorem util_get_max_bsize_wraps :
    min_feasible_size library_btt_consts = 34904 ∧
      util_get_max_bsize library_btt_consts 1 = 1073741568 ∧
      util_get_max_bsize library_btt_consts (4184 + 549755813888) = 1073741568 ∧
      util_get_max_bsize_arena library_btt_consts 1 = 549755789312 ∧
      util_get_max_bsize library_btt_consts 34903 = 4294967040 ∧
      util_get_max_bsize library_btt_consts 34904 = 256 := by
  decide

theorem util_get_max_bsize_lt (c : btt_consts) (fsize : Nat) :
    util_get_max_bsize c fsize < 2 ^ 32 := by
  unfold util_get_max_bsize
  split
  · decide
  · exact usub32_lt _ _

/-- C18: `util_check_bsize (bsize, fsize)` returns non-zero exactly when
`bsize ≥ util_get_max_bsize (fsize)`; the value is `1` then and `0` otherwise. -/
theorem util_check_bsize_iff (c : btt_consts) (bsize fsize : Nat) :
    (util_check_bsize c bsize fsize ≠ 0 ↔ util_get_max_bsize c fsize ≤ bsize) ∧
      util_check_bsize c bsize fsize =
        if util_get_max_bsize c fsize ≤ bsize then 1 else 0 := by
  unfold util_check_bsize
  by_cases h : bsize < util_get_max_bsize c fsize
  · have h2 : ¬ util_get_max_bsize c fsize ≤ bsize := by omega
    simp [h, h2]
  · have h2 : util_get_max_bsize c fsize ≤ bsize := by omega
    simp [h, h2]

/-- C19, as stated, fails at `fsize = 0`: the planner result is `M = 0`, and
`M - 1` in `uint32_t` is `4294967295`, which `util_check_bsize` accepts. -/
theorem util_check_bsize_below_zero :
    util_get_max_bsize library_btt_consts 0 = 0 ∧
      usub32 (util_get_max_bsize library_btt_consts 0) 1 = 4294967295 ∧
      util_check_bsize library_btt_consts
        (usub32 (util_get_max_bsize library_btt_consts 0) 1) 0 = 1 := by
  decide

/-- C19, amended: for every `fsize`, with `M = util_get_max_bsize (fsize)`,
`util_check_bsize (M, fsize)` is true; `util_check_bsize (M - 1, fsize)`, with
`M - 1` formed in `uint32_t`, is false when `M > 0` and true when `M = 0`. -/
theorem util_check_bsize_boundary (c : btt_consts) (fsize : Nat) :
    util_check_bsize c (util_get_max_bsize c fsize) fsize = 1 ∧
      util_check_bsize c (usub32 (util_get_max_bsize c fsize) 1) fsize =
        if util_get_max_bsize c fsize = 0 then 1 else 0 := by
  have hlt := util_get_max_bsize_lt c fsize
  unfold util_check_bsize
  generalize util_get_max_bsize c fsize = M at hlt ⊢
  constructor
  · simp
  · by_cases h0 : M = 0
    · subst h0
      simp
    · have e : usub32 M 1 = M - 1 := usub32_eq _ _ (by omega) hlt
      rw [e]
      have h1 : M - 1 < M := by omega
      simp [h0, h1]

/-- C20, as stated, fails: with the library's constants and `fsize = 1000000`
the clamped value is `1884` and the returned value is `1792`, which is smaller
than the clamped value. -/
theorem util_get_max_bsize_below_clamped :
    min_feasible_size library_btt_consts ≤ 1000000 ∧
      util_get_max_bsize_lbasize library_btt_consts 1000000 = 1884 ∧
      util_get_max_bsize library_btt_consts 1000000 = 1792 ∧
      ¬ util_get_max_bsize_lbasize library_btt_consts 1000000 ≤
        util_get_max_bsize library_btt_consts 1000000 := by
  decide

/-- C20, amended: for constants that fit their C types and every feasible
`fsize`, with `c` the clamped value and `a = BTT_INTERNAL_LBA_ALIGNMENT`, the
returned value `R` is `roundup (c, a) - a`: it has the form `k * a - a` with `k`
positive, it is smaller than `c` by at most `a` (`R < c ≤ R + a`), and it is the
largest value of that form that is smaller than `c`. -/
theorem util_get_max_bsize_rounding (c : btt_consts) (fsize : Nat) (hf : c.fits)
    (hfeas : min_feasible_size c ≤ fsize) (h64 : fsize < 2 ^ 64) :
    util_get_max_bsize c fsize =
        roundup (util_get_max_bsize_lbasize c fsize) c.BTT_INTERNAL_LBA_ALIGNMENT -
          c.BTT_INTERNAL_LBA_ALIGNMENT ∧
      util_get_max_bsize_lbasize c fsize =
        max c.BTT_MIN_LBA_SIZE
          ((util_get_max_bsize_arena c fsize - c.BTT_ALIGNMENT) / (2 * c.BTT_DEFAULT_NFREE) -
            c.BTT_MAP_ENTRY_SIZE) ∧
      (∃ k, 0 < k ∧
        util_get_max_bsize c fsize =
          k * c.BTT_INTERNAL_LBA_ALIGNMENT - c.BTT_INTERNAL_LBA_ALIGNMENT) ∧
      util_get_max_bsize c fsize < util_get_max_bsize_lbasize c fsize ∧
      util_get_max_bsize_lbasize c fsize ≤
        util_get_max_bsize c fsize + c.BTT_INTERNAL_LBA_ALIGNMENT ∧
      ∀ k, 0 < k →
        k * c.BTT_INTERNAL_LBA_ALIGNMENT - c.BTT_INTERNAL_LBA_ALIGNMENT <
          util_get_max_bsize_lbasize c fsize →
        k * c.BTT_INTERNAL_LBA_ALIGNMENT - c.BTT_INTERNAL_LBA_ALIGNMENT ≤
          util_get_max_bsize c fsize := by
  have he := util_get_max_bsize_eq c fsize hf hfeas h64
  have hl := lbasize_eq c fsize hf hfeas h64
  have ha := arena_eq c fsize hf hfeas h64
  have h5 : 0 < c.BTT_INTERNAL_LBA_ALIGNMENT := hf.2.2.2.2.1
  have hr := roundup_bounds (clamped_nat c fsize) c.BTT_INTERNAL_LBA_ALIGNMENT h5
  have hc0 := (clamped_nat_bounds c fsize hf hfeas).1
  rw [hl, he.1]
  refine ⟨rfl, ?_, ?_, ?_, ?_, ?_⟩
  · unfold clamped_nat arena_nat
    rw [ha]
  · refine ⟨(clamped_nat c fsize + (c.BTT_INTERNAL_LBA_ALIGNMENT - 1)) /
      c.BTT_INTERNAL_LBA_ALIGNMENT, ?_, ?_⟩
    · rcases Nat.eq_zero_or_pos ((clamped_nat c fsize + (c.BTT_INTERNAL_LBA_ALIGNMENT - 1)) /
        c.BTT_INTERNAL_LBA_ALIGNMENT) with h0 | h0
      · have h3 := hr.1
        rw [hr.2.2, h0] at h3
        clear * - h3 hc0
        omega
      · exact h0
    · rfl
  · have := he.2.1
    clear * - this hr hc0 h5
    omega
  · have := he.2.1
    clear * - this hr
    omega
  · intro k hk hlt
    have hge := he.2.1
    have e0 : roundup (clamped_nat c fsize) c.BTT_INTERNAL_LBA_ALIGNMENT =
        (clamped_nat c fsize + (c.BTT_INTERNAL_LBA_ALIGNMENT - 1)) /
          c.BTT_INTERNAL_LBA_ALIGNMENT * c.BTT_INTERNAL_LBA_ALIGNMENT := rfl
    have hr1 := hr.1
    rw [e0] at hge hr1 ⊢
    generalize (clamped_nat c fsize + (c.BTT_INTERNAL_LBA_ALIGNMENT - 1)) /
      c.BTT_INTERNAL_LBA_ALIGNMENT = k0 at hge hr1 ⊢
    have hka : c.BTT_INTERNAL_LBA_ALIGNMENT ≤ k * c.BTT_INTERNAL_LBA_ALIGNMENT :=
      Nat.le_mul_of_pos_left _ hk
    have hkk : k * c.BTT_INTERNAL_LBA_ALIGNMENT < (k0 + 1) * c.BTT_INTERNAL_LBA_ALIGNMENT := by
      rw [Nat.add_mul, Nat.one_mul]
      clear * - hlt hr1 hka
      omega
    have hk0 : k ≤ k0 := Nat.lt_succ_iff.mp (Nat.lt_of_mul_lt_mul_right hkk)
    have := Nat.mul_le_mul_right c.BTT_INTERNAL_LBA_ALIGNMENT hk0
    clear * - this
    omega

theorem util_get_max_bsize_rounding_witness :
    library_btt_consts.fits ∧ min_feasible_size library_btt_consts ≤ 1000000 ∧
      (1000000 : Nat) < 2 ^ 64 ∧
      util_get_max_bsize_lbasize library_btt_consts 1000000 = 1884 ∧
      roundup 1884 256 = 2048 ∧
      util_get_max_bsize library_btt_consts 1000000 =
        roundup (util_get_max_bsize_lbasize library_btt_consts 1000000)
            library_btt_consts.BTT_INTERNAL_LBA_ALIGNMENT -
          library_btt_consts.BTT_INTERNAL_LBA_ALIGNMENT :=
  ⟨by decide, by decide, by decide, by decide, by decide,
    (util_get_max_bsize_rounding library_btt_consts 1000000 (by decide) (by decide)
      (by decide)).1⟩


/-! ## Claims about probing a pool file -/

/-- C21: when `open` succeeds, a whole `struct pool_hdr` is read, its signature
compares equal to none of the registered values and `fstat` succeeds,
`pmem_pool_parse_params` returns `0` with `type = PMEM_POOL_TYPE_UNKNOWN`, `size`
and `mode` from the stat result and the payload members untouched, after the
calls `open`, `pread` of the header, `fstat`, `close` and no other. -/
theorem pmem_pool_parse_params_unknown (k : hdr_sigs) (be : Bool) (f : pool_file)
    (paramsp : pmem_pool_params) (hdr : pool_hdr) (size mode : Nat)
    (hopen : f.open_ok = true) (hhdr : f.hdr = some hdr)
    (hlog : strncmp hdr.signature k.LOG_HDR_SIG k.POOL_HDR_SIG_LEN ≠ 0)
    (hblk : strncmp hdr.signature k.BLK_HDR_SIG k.POOL_HDR_SIG_LEN ≠ 0)
    (hobj : strncmp hdr.signature k.OBJ_HDR_SIG k.POOL_HDR_SIG_LEN ≠ 0)
    (hstat : f.stat = some (size, mode)) :
    pmem_pool_parse_params k be f paramsp =
      (0,
        { type := pmem_pool_type_t.PMEM_POOL_TYPE_UNKNOWN, size := size, mode := mode,
          blk_bsize := paramsp.blk_bsize, obj_layout := paramsp.obj_layout },
        [sys_call.sys_open, sys_call.pread_pool_hdr, sys_call.sys_fstat,
          sys_call.sys_close]) := by
  have ht : pmem_pool_type_parse_hdr k hdr = pmem_pool_type_t.PMEM_POOL_TYPE_UNKNOWN := by
    unfold pmem_pool_type_parse_hdr
    rw [if_neg hlog, if_neg hblk, if_neg hobj]
  unfold pmem_pool_parse_params
  simp [hopen, hhdr, hstat, ht]

theorem pmem_pool_parse_params_unknown_witness :
    (⟨true, some ⟨[80, 77, 69, 77, 88, 88, 88, 0], 0, 0, 0, 0, 0, []⟩, some (8192, 420),
        some 512, none⟩ : pool_file).open_ok = true ∧
      strncmp [80, 77, 69, 77, 88, 88, 88, 0] library_sigs.LOG_HDR_SIG
        library_sigs.POOL_HDR_SIG_LEN ≠ 0 ∧
      pmem_pool_parse_params library_sigs false
          ⟨true, some ⟨[80, 77, 69, 77, 88, 88, 88, 0], 0, 0, 0, 0, 0, []⟩, some (8192, 420),
            some 512, none⟩
          ⟨pmem_pool_type_t.PMEM_POOL_TYPE_NONE, 1, 2, 3, [4]⟩ =
        (0, ⟨pmem_pool_type_t.PMEM_POOL_TYPE_UNKNOWN, 8192, 420, 3, [4]⟩,
          [sys_call.sys_open, sys_call.pread_pool_hdr, sys_call.sys_fstat,
            sys_call.sys_close]) :=
  ⟨by decide, by decide,
    pmem_pool_parse_params_unknown library_sigs false
      ⟨true, some ⟨[80, 77, 69, 77, 88, 88, 88, 0], 0, 0, 0, 0, 0, []⟩, some (8192, 420),
        some 512, none⟩
      ⟨pmem_pool_type_t.PMEM_POOL_TYPE_NONE, 1, 2, 3, [4]⟩
      ⟨[80, 77, 69, 77, 88, 88, 88, 0], 0, 0, 0, 0, 0, []⟩ 8192 420
      (by decide) (by decide) (by decide) (by decide) (by decide) (by decide)⟩

/-! ## Claims about `util_ranges_overlap` -/

/-- C22: `util_ranges_overlap` returns `0` for `[5, 2^64-1]` against itself and
for `[0, 2^64-1]` against `[10, 20]`, although in both pairs the intervals share
a point: `last + 1` wraps to `0`. -/
theorem util_ranges_overlap_wraps :
    util_ranges_overlap ⟨5, 18446744073709551615⟩ ⟨5, 18446744073709551615⟩ = 0 ∧
      util_ranges_overlap ⟨0, 18446744073709551615⟩ ⟨10, 20⟩ = 0 ∧
      util_ranges_overlap ⟨10, 20⟩ ⟨0, 18446744073709551615⟩ = 0 ∧
      ((18446744073709551615 : Int) + 1 ≥ 10 ∧ (20 : Int) + 1 ≥ 0) ∧
      ((18446744073709551615 : Int) + 1 ≥ 5 ∧ (18446744073709551615 : Int) + 1 ≥ 5) := by
  decide

/-- Away from the wrap, `util_ranges_overlap` is the overlap-or-touch relation:
for `uint64_t` ranges that end below `2^64 - 1` it returns `1` exactly when
`a.last + 1 ≥ b.first` and `b.last + 1 ≥ a.first`. -/
theorem util_ranges_overlap_below_max (a b : range) (ha : a.last < 2 ^ 64 - 1)
    (hb : b.last < 2 ^ 64 - 1) :
    util_ranges_overlap a b = 1 ↔ (b.first ≤ a.last + 1 ∧ a.first ≤ b.last + 1) := by
  have h := overlap_eq_zero_iff_apart a b ha hb
  unfold range.apart at h
  have hv : util_ranges_overlap a b = 0 ∨ util_ranges_overlap a b = 1 := by
    unfold util_ranges_overlap
    split
    · exact Or.inl rfl
    · exact Or.inr rfl
  rcases hv with h0 | h1
  · have := h.mp h0
    rw [h0]
    constructor
    · intro hx; exact absurd hx (by decide)
    · intro hx; omega
  · have hn : ¬ (a.last + 1 < b.first ∨ b.last + 1 < a.first) := by
      intro hx
      have := h.mpr hx
      rw [h1] at this
      exact absurd this (by decide)
    rw [h1]
    constructor
    · intro _; omega
    · intro _; rfl

/-! ## Claims about `util_parse_size` -/

/-- C23: `util_parse_size` accepts `"16384P"` and stores `0`: the shift
`16384 << 50` is `2^64` and wraps.  It rejects `"5B"`, a number followed by `B`
without a unit letter, and accepts `"5KB"` with `5120`. -/
theorem util_parse_size_truncates :
    util_parse_size ['1', '6', '3', '8', '4', 'P'] = some 0 ∧
      16384 * 2 ^ 50 = 2 ^ 64 ∧
      util_parse_size ['3', '2', '7', '6', '9', 'P', 'B'] = some 1125899906842624 ∧
      util_parse_size ['5', 'B'] = none ∧
      util_parse_size ['5', 'K', 'B'] = some 5120 := by
  decide

/-! ## `util_parse_mode` -/

theorem octal_step : ∀ m < 64, ∀ d < 8, (m <<< 3) % 2 ^ 32 ||| d = m * 8 + d := by
  decide

theorem parse_mode_nil (m d : Nat) : util_parse_mode_digits [] m d = some (m, d, []) := rfl

theorem parse_mode_bad (c : Char) (str : List Char) (m d : Nat) (hd : d < 3)
    (hc : ¬ is_octal c) : util_parse_mode_digits (c :: str) m d = none := by
  have h : c.toNat < '0'.toNat ∨ c.toNat > '7'.toNat := by
    unfold is_octal at hc
    omega
  rw [util_parse_mode_digits, if_pos hd, if_pos h]

theorem parse_mode_ok (c : Char) (str : List Char) (m d : Nat) (hd : d < 3)
    (hc : is_octal c) (hm : m < 64) :
    util_parse_mode_digits (c :: str) m d =
      util_parse_mode_digits str (m * 8 + (c.toNat - '0'.toNat)) (d + 1) := by
  have h : ¬ (c.toNat < '0'.toNat ∨ c.toNat > '7'.toNat) := by
    unfold is_octal at hc
    omega
  have e0 : '0'.toNat = 48 := by decide
  have e7 : '7'.toNat = 55 := by decide
  have hlt : c.toNat - '0'.toNat < 8 := by
    unfold is_octal at hc
    rw [e0, e7] at hc
    rw [e0]
    omega
  rw [util_parse_mode_digits, if_pos hd, if_neg h, octal_step m hm _ hlt]

theorem parse_mode_stop (c : Char) (str : List Char) (m : Nat) :
    util_parse_mode_digits (c :: str) m 3 = some (m, 3, c :: str) := by
  rw [util_parse_mode_digits, if_neg (by decide)]

theorem octal_digit_lt (c : Char) (hc : is_octal c) : c.toNat - '0'.toNat < 8 := by
  have e0 : '0'.toNat = 48 := by decide
  have e7 : '7'.toNat = 55 := by decide
  unfold is_octal at hc
  rw [e0, e7] at hc
  rw [e0]
  omega

theorem util_parse_mode_eq (str : List Char) (mode : Nat) :
    util_parse_mode str mode =
      if (str.dropWhile (fun c => c = '0')).length ≤ 3 ∧
          ∀ c ∈ str.dropWhile (fun c => c = '0'), is_octal c then
        (0, octal_value (str.dropWhile (fun c => c = '0')))
      else (-1, mode) := by
  unfold util_parse_mode
  generalize str.dropWhile (fun c => c = '0') = t
  match t with
  | [] =>
    rw [parse_mode_nil]
    simp [octal_value]
  | [a] =>
    by_cases ha : is_octal a
    · rw [parse_mode_ok a [] 0 0 (by decide) ha (by decide), parse_mode_nil]
      simp [octal_value, ha]
    · rw [parse_mode_bad a [] 0 0 (by decide) ha]
      simp [ha]
  | [a, b] =>
    by_cases ha : is_octal a
    · have da := octal_digit_lt a ha
      rw [parse_mode_ok a [b] 0 0 (by decide) ha (by decide)]
      by_cases hb : is_octal b
      · rw [parse_mode_ok b [] _ _ (by decide) hb (by omega), parse_mode_nil]
        simp [octal_value, ha, hb]
      · rw [parse_mode_bad b [] _ _ (by decide) hb]
        simp [ha, hb]
    · rw [parse_mode_bad a [b] 0 0 (by decide) ha]
      simp [ha]
  | a :: b :: c :: rest =>
    by_cases ha : is_octal a
    · have da := octal_digit_lt a ha
      rw [parse_mode_ok a (b :: c :: rest) 0 0 (by decide) ha (by decide)]
      by_cases hb : is_octal b
      · have db := octal_digit_lt b hb
        rw [parse_mode_ok b (c :: rest) _ _ (by decide) hb (by omega)]
        by_cases hc : is_octal c
        · rw [parse_mode_ok c rest _ _ (by decide) hc (by omega)]
          cases rest with
          | nil =>
            rw [parse_mode_nil]
            simp [octal_value, ha, hb, hc]
          | cons d ds =>
            rw [parse_mode_stop]
            simp
        · rw [parse_mode_bad c rest _ _ (by decide) hc]
          simp [ha, hb, hc]
      · rw [parse_mode_bad b (c :: rest) _ _ (by decide) hb]
        simp [ha, hb]
    · rw [parse_mode_bad a (b :: c :: rest) 0 0 (by decide) ha]
      simp [ha]

theorem octal_value_le (t : List Char) (hl : t.length ≤ 3) (ht : ∀ c ∈ t, is_octal c) :
    octal_value t ≤ 511 := by
  match t with
  | [] => decide
  | [a] =>
    have da := octal_digit_lt a (ht a (by simp))
    simp only [octal_value, List.foldl]
    omega
  | [a, b] =>
    have da := octal_digit_lt a (ht a (by simp))
    have db := octal_digit_lt b (ht b (by simp))
    simp only [octal_value, List.foldl]
    omega
  | [a, b, c] =>
    have da := octal_digit_lt a (ht a (by simp))
    have db := octal_digit_lt b (ht b (by simp))
    have dc := octal_digit_lt c (ht c (by simp))
    simp only [octal_value, List.foldl]
    omega
  | a :: b :: c :: d :: rest => simp at hl


/-! ## Claims about `util_parse_mode`, `util_heap_max_zone` and `util_check_memory` -/

/-- C24: with `t` the string after its leading `'0'` characters,
`util_parse_mode` returns `0` exactly when `t` has at most 3 characters, all in
`'0'`..`'7'`; then the stored mode is the octal value of `t` and at most `0777`;
otherwise it returns `-1` and `*mode` is unchanged. -/
theorem util_parse_mode_octal (str : List Char) (mode : Nat) :
    ((util_parse_mode str mode).1 = 0 ↔
        (str.dropWhile (fun c => c = '0')).length ≤ 3 ∧
          ∀ c ∈ str.dropWhile (fun c => c = '0'), is_octal c) ∧
      ((util_parse_mode str mode).1 = 0 →
        (util_parse_mode str mode).2 = octal_value (str.dropWhile (fun c => c = '0')) ∧
          (util_parse_mode str mode).2 ≤ 511) ∧
      ((util_parse_mode str mode).1 ≠ 0 →
        (util_parse_mode str mode).1 = -1 ∧ (util_parse_mode str mode).2 = mode) ∧
      octal_value ['7', '7', '7'] = 511 := by
  rw [util_parse_mode_eq]
  by_cases h : (str.dropWhile (fun c => c = '0')).length ≤ 3 ∧
      ∀ c ∈ str.dropWhile (fun c => c = '0'), is_octal c
  · rw [if_pos h]
    refine ⟨⟨fun _ => h, fun _ => rfl⟩, fun _ => ⟨rfl, octal_value_le _ h.1 h.2⟩,
      fun h0 => absurd rfl h0, by decide⟩
  · rw [if_neg h]
    refine ⟨⟨fun h0 => ?_, fun hc => absurd hc h⟩, fun h0 => ?_, fun _ => ⟨rfl, rfl⟩,
      by decide⟩
    · simp at h0
    · simp at h0

/-! ## `util_heap_max_zone` -/

theorem heap_loop_terminates (k : heap_consts) (hmin : 0 < k.ZONE_MIN_SIZE)
    (hle : k.ZONE_MIN_SIZE ≤ k.ZONE_MAX_SIZE) :
    ∀ fuel size max_zone, size < fuel → size < 2 ^ 64 →
      ∃ r, util_heap_max_zone_loop k fuel max_zone size = some r := by
  intro fuel
  induction fuel with
  | zero => intro size _ h; omega
  | succ fuel ih =>
    intro size z hf h64
    unfold util_heap_max_zone_loop
    by_cases hs : size ≥ k.ZONE_MIN_SIZE
    · rw [if_pos hs]
      have e : usub64 size (if size ≤ k.ZONE_MAX_SIZE then size else k.ZONE_MAX_SIZE) =
          size - (if size ≤ k.ZONE_MAX_SIZE then size else k.ZONE_MAX_SIZE) :=
        usub64_eq _ _ (by split <;> omega) h64
      rw [e]
      apply ih
      · split <;> omega
      · omega
    · rw [if_neg hs]
      exact ⟨z, rfl⟩

theorem heap_zones_small (k : heap_consts) (s : Nat) (hle : k.ZONE_MIN_SIZE ≤ k.ZONE_MAX_SIZE)
    (hs : s < k.ZONE_MIN_SIZE) : heap_zones k s = 0 := by
  unfold heap_zones
  have h1 : s % k.ZONE_MAX_SIZE = s := Nat.mod_eq_of_lt (by omega)
  have h2 : s / k.ZONE_MAX_SIZE = 0 := Nat.div_eq_of_lt (by omega)
  rw [h1, h2, if_neg (by omega)]

theorem heap_zones_last (k : heap_consts) (s : Nat) (hmin : 0 < k.ZONE_MIN_SIZE)
    (hs : k.ZONE_MIN_SIZE ≤ s) (hs2 : s ≤ k.ZONE_MAX_SIZE) : heap_zones k s = 1 := by
  unfold heap_zones
  rcases Nat.lt_or_ge s k.ZONE_MAX_SIZE with h | h
  · have h1 : s % k.ZONE_MAX_SIZE = s := Nat.mod_eq_of_lt h
    have h2 : s / k.ZONE_MAX_SIZE = 0 := Nat.div_eq_of_lt h
    rw [h1, h2, if_pos hs]
  · have e : s = k.ZONE_MAX_SIZE := by omega
    rw [e, Nat.mod_self, Nat.div_self (by omega), if_neg (by omega)]

theorem heap_zones_step (k : heap_consts) (s : Nat) (hmax : 0 < k.ZONE_MAX_SIZE)
    (hs : k.ZONE_MAX_SIZE < s) :
    heap_zones k s = heap_zones k (s - k.ZONE_MAX_SIZE) + 1 := by
  unfold heap_zones
  have h1 : s % k.ZONE_MAX_SIZE = (s - k.ZONE_MAX_SIZE) % k.ZONE_MAX_SIZE :=
    Nat.mod_eq_sub_mod (by omega)
  have h2 : s / k.ZONE_MAX_SIZE = (s - k.ZONE_MAX_SIZE) / k.ZONE_MAX_SIZE + 1 := by
    have e : s = (s - k.ZONE_MAX_SIZE) + k.ZONE_MAX_SIZE := by omega
    rw [e, Nat.add_div_right _ hmax, Nat.add_sub_cancel]
  rw [h1, h2]
  split <;> rfl

theorem heap_loop_value (k : heap_consts) (hmin : 0 < k.ZONE_MIN_SIZE)
    (hle : k.ZONE_MIN_SIZE ≤ k.ZONE_MAX_SIZE) :
    ∀ fuel size (max_zone : Int), size < fuel → size < 2 ^ 64 → 0 ≤ max_zone →
      max_zone + (heap_zones k size : Int) < 2 ^ 31 →
      util_heap_max_zone_loop k fuel max_zone size =
        some (max_zone + (heap_zones k size : Int)) := by
  intro fuel
  induction fuel with
  | zero => intro size _ h; omega
  | succ fuel ih =>
    intro size z hf h64 hz hfit
    unfold util_heap_max_zone_loop
    by_cases hs : size ≥ k.ZONE_MIN_SIZE
    · rw [if_pos hs]
      by_cases hm : size ≤ k.ZONE_MAX_SIZE
      · have hc := heap_zones_last k size hmin hs hm
        rw [hc] at hfit ⊢
        have e : usub64 size size = 0 := by
          rw [usub64_eq _ _ (Nat.le_refl _) h64]; omega
        have e2 : to_int (z + 1) = z + 1 := to_int_eq _ (by omega) (by omega)
        rw [if_pos hm, e, e2]
        have h0 := heap_zones_small k 0 hle hmin
        have := ih 0 (z + 1) (by omega) (by omega) (by omega) (by rw [h0]; omega)
        rw [this, h0]
        simp
      · have hc := heap_zones_step k size (by omega) (by omega)
        rw [hc] at hfit ⊢
        have e : usub64 size k.ZONE_MAX_SIZE = size - k.ZONE_MAX_SIZE :=
          usub64_eq _ _ (by omega) h64
        have e2 : to_int (z + 1) = z + 1 := to_int_eq _ (by omega) (by omega)
        rw [if_neg hm, e, e2]
        have := ih (size - k.ZONE_MAX_SIZE) (z + 1) (by omega) (by omega) (by omega)
          (by push_cast at hfit ⊢; omega)
        rw [this]
        push_cast
        congr 1
        omega
    · rw [if_neg hs, heap_zones_small k size hle (by omega)]
      simp

/-- C25: given `0 < ZONE_MIN_SIZE ≤ ZONE_MAX_SIZE`, the loop of
`util_heap_max_zone` ends for every `size_t` input; and for
`size ≥ sizeof (struct heap_header)`, with `s`, `q`, `r` as in `heap_zones` and a
count that fits `int`, the function returns `q + 1` if `r ≥ ZONE_MIN_SIZE` and
`q` otherwise. -/
theorem util_heap_max_zone_count (k : heap_consts) (size : Nat)
    (hmin : 0 < k.ZONE_MIN_SIZE) (hle : k.ZONE_MIN_SIZE ≤ k.ZONE_MAX_SIZE)
    (hsize : size < 2 ^ 64) :
    (∃ max_zone, util_heap_max_zone k size = some max_zone) ∧
      (k.sizeof_heap_header ≤ size →
        (size - k.sizeof_heap_header) / k.ZONE_MAX_SIZE + 1 < 2 ^ 31 →
        util_heap_max_zone k size =
          some (if (size - k.sizeof_heap_header) % k.ZONE_MAX_SIZE ≥ k.ZONE_MIN_SIZE then
            (((size - k.sizeof_heap_header) / k.ZONE_MAX_SIZE + 1 : Nat) : Int)
          else (((size - k.sizeof_heap_header) / k.ZONE_MAX_SIZE : Nat) : Int))) := by
  have hlt : usub64 size k.sizeof_heap_header < 2 ^ 64 := by
    unfold usub64
    exact Nat.mod_lt _ (by decide)
  constructor
  · exact heap_loop_terminates k hmin hle _ _ 0 (Nat.lt_succ_self _) hlt
  · intro hh hfit
    unfold util_heap_max_zone
    rw [usub64_eq _ _ hh hsize]
    have hz : heap_zones k (size - k.sizeof_heap_header) ≤
        (size - k.sizeof_heap_header) / k.ZONE_MAX_SIZE + 1 := by
      unfold heap_zones
      split <;> omega
    have := heap_loop_value k hmin hle (size - k.sizeof_heap_header + 1)
      (size - k.sizeof_heap_header) 0 (Nat.lt_succ_self _) (by omega) (by omega)
      (by
        have h2 : ((heap_zones k (size - k.sizeof_heap_header) : Nat) : Int) <
            ((2 ^ 31 : Nat) : Int) := by
          exact_mod_cast (by omega : heap_zones k (size - k.sizeof_heap_header) < 2 ^ 31)
        push_cast at h2
        omega)
    rw [this]
    unfold heap_zones
    split <;> simp

theorem util_heap_max_zone_count_witness :
    (0 : Nat) < (⟨10, 3, 5⟩ : heap_consts).ZONE_MIN_SIZE ∧
      (⟨10, 3, 5⟩ : heap_consts).ZONE_MIN_SIZE ≤ (⟨10, 3, 5⟩ : heap_consts).ZONE_MAX_SIZE ∧
      (28 : Nat) < 2 ^ 64 ∧
      util_heap_max_zone ⟨10, 3, 5⟩ 28 = some 4 ∧
      util_heap_max_zone ⟨10, 3, 5⟩ 27 = some 3 ∧
      ∃ max_zone, util_heap_max_zone ⟨10, 3, 5⟩ 28 = some max_zone :=
  ⟨by decide, by decide, by decide, by decide, by decide,
    (util_heap_max_zone_count ⟨10, 3, 5⟩ 28 (by decide) (by decide) (by decide)).1⟩

/-! ## `util_check_memory` -/

theorem util_check_memory_loop_spec (buff : List Nat) (val : Nat) :
    ∀ n i, (util_check_memory_loop buff val n i = 0 ↔
        ∀ j, i ≤ j → j < i + n → buff.getD j 0 = val) ∧
      (util_check_memory_loop buff val n i ≠ 0 → util_check_memory_loop buff val n i = -1) := by
  intro n
  induction n with
  | zero =>
    intro i
    unfold util_check_memory_loop
    refine ⟨⟨fun _ j h1 h2 => by omega, fun _ => rfl⟩, fun h => absurd rfl h⟩
  | succ n ih =>
    intro i
    unfold util_check_memory_loop
    by_cases h : buff.getD i 0 = val
    · rw [if_neg (by simpa using h)]
      refine ⟨?_, (ih (i + 1)).2⟩
      rw [(ih (i + 1)).1]
      constructor
      · intro hx j h1 h2
        rcases Nat.eq_or_lt_of_le h1 with e | e
        · rw [← e]; exact h
        · exact hx j (by omega) (by omega)
      · intro hx j h1 h2
        exact hx j (by omega) (by omega)
    · rw [if_pos h]
      refine ⟨⟨fun h0 => absurd h0 (by decide), fun hx => absurd (hx i (Nat.le_refl _) (by omega)) h⟩,
        fun _ => rfl⟩

/-- C26: for a buffer of at least `len` bytes, `util_check_memory` returns `0`
exactly when `buff[i] = val` for every `i < len` (so `0` for `len = 0`), and `-1`
otherwise. -/
theorem util_check_memory_single_value (buff : List Nat) (len val : Nat)
    (hlen : len ≤ buff.length) :
    (util_check_memory buff len val = 0 ↔ ∀ i, i < len → buff[i]? = some val) ∧
      (util_check_memory buff len val ≠ 0 → util_check_memory buff len val = -1) ∧
      util_check_memory buff 0 val = 0 := by
  unfold util_check_memory
  have hs := util_check_memory_loop_spec buff val len 0
  refine ⟨?_, hs.2, rfl⟩
  rw [hs.1]
  constructor
  · intro h i hi
    have := h i (Nat.zero_le _) (by omega)
    rw [List.getD_eq_getElem _ _ (by omega : i < buff.length)] at this
    rw [List.getElem?_eq_getElem (by omega : i < buff.length), this]
  · intro h j _ hj
    have hj' : j < len := by omega
    have := h j hj'
    rw [List.getElem?_eq_getElem (by omega : j < buff.length)] at this
    rw [List.getD_eq_getElem _ _ (by omega : j < buff.length)]
    exact Option.some.inj this

theorem util_check_memory_single_value_witness :
    3 ≤ [7, 7, 7, 9].length ∧
      util_check_memory [7, 7, 7, 9] 3 7 = 0 ∧
      util_check_memory [7, 7, 7, 9] 4 7 = -1 ∧
      (util_check_memory [7, 7, 7, 9] 3 7 = 0 ↔
        ∀ i, i < 3 → [7, 7, 7, 9][i]? = some 7) :=
  ⟨by decide, by decide, by decide,
    (util_check_memory_single_value [7, 7, 7, 9] 3 7 (by decide)).1⟩

end Pmempool
